import Mathlib

set_option maxRecDepth 8000

/-! # Shallow embedding of the insurance OCR extraction pipeline

Definitions in this file translate the Python sources under `src/ocr/`
(`debit_note_parser.py`, `account_statement_parser.py`,
`renewal_notice_parser.py`, `document_parser.py`) into Lean.

Modelling conventions:
* Python `str` is modelled as `String` / `List Char` (ASCII semantics for
  case folding, `\s`, `\d`, `\w`).
* Python `float` is modelled as `ℚ`; numeric literals parsed from decimal
  strings are exact rationals.
* Python exceptions are modelled with `Except String`; code whose fallible
  operations are all wrapped in `try/except` in the source is embedded as a
  pure function.
* Python `re` patterns are embedded through a small backtracking regex
  engine (`Rx`) with Python's leftmost-match, greedy/lazy backtracking
  semantics; each source pattern is transcribed into an `Rx.RE` value.
-/

namespace PyStr

/-- ASCII whitespace as matched by Python's `\s` and stripped by `str.strip()`. -/
def isSpaceB (c : Char) : Bool :=
  c = ' ' || c = '\t' || c = '\n' || c = '\r' || c = '\x0b' || c = '\x0c'

/-- Python `\w` (ASCII): letters, digits, underscore. -/
def isWordB (c : Char) : Bool := c.isAlphanum || c = '_'

/-- Python `str.strip()` (ASCII whitespace). -/
def stripL (s : List Char) : List Char :=
  ((s.dropWhile isSpaceB).reverse.dropWhile isSpaceB).reverse

/-- Python `str.strip(chars)`. -/
def stripCharsL (cset : List Char) (s : List Char) : List Char :=
  ((s.dropWhile (cset.contains ·)).reverse.dropWhile (cset.contains ·)).reverse

/-- Python `str.upper()` (ASCII). -/
def upperL (s : List Char) : List Char := s.map Char.toUpper

def startsWithL : List Char → List Char → Bool
  | [], _ => true
  | _ :: _, [] => false
  | p :: ps, c :: cs => p = c && startsWithL ps cs

/-- `p` occurs as a contiguous substring of the second argument. -/
def infixOfL (p : List Char) : List Char → Bool
  | [] => startsWithL p []
  | c :: cs => startsWithL p (c :: cs) || infixOfL p cs

/-- Python `str.replace(old, new)`: non-overlapping, left-to-right.
Structural recursion on a fuel bounded below by the input length (each step
consumes at least one character, so the fuel never runs out). -/
def replaceLGo (old new : List Char) : Nat → List Char → List Char
  | _, [] => []
  | 0, s => s
  | fuel + 1, c :: cs =>
    if old ≠ [] ∧ startsWithL old (c :: cs) = true then
      new ++ replaceLGo old new fuel ((c :: cs).drop old.length)
    else
      c :: replaceLGo old new fuel cs

def replaceL (old new s : List Char) : List Char := replaceLGo old new s.length s

/-- Python `str.split()` with no argument: split on whitespace runs, no empties. -/
def splitWsL (s : List Char) : List (List Char) :=
  (s.splitOnP isSpaceB).filter (· ≠ [])

/-- Python `str.split(sep)` for a single-character separator. -/
def splitCharL (sep : Char) (s : List Char) : List (List Char) :=
  s.splitOn sep

/-- Python `str.splitlines()`: splits on `\n`, `\r`, `\r\n`; a trailing
terminator produces no trailing empty line. -/
def splitlinesGo (acc : List Char) : List Char → List (List Char)
  | [] => [acc.reverse]
  | '\r' :: '\n' :: t =>
    acc.reverse :: (if t.isEmpty then [] else splitlinesGo [] t)
  | '\r' :: t =>
    acc.reverse :: (if t.isEmpty then [] else splitlinesGo [] t)
  | '\n' :: t =>
    acc.reverse :: (if t.isEmpty then [] else splitlinesGo [] t)
  | c :: t => splitlinesGo (c :: acc) t

def splitlinesL (s : List Char) : List (List Char) :=
  if s.isEmpty then [] else splitlinesGo [] s

/-- Value of an ASCII digit character. -/
def digitVal (c : Char) : ℕ := c.toNat - 48

/-- Decimal value of a digit string. -/
def digitsToNat (s : List Char) : ℕ := s.foldl (fun a c => 10 * a + digitVal c) 0

/-- Python `float(s)` restricted to the sign-free strings arising in this
code base (digits and at most one `.`); `none` models `ValueError`.
The integer part is `s.takeWhile isDigit`, the rest must be empty or a
`.` followed by digits, with at least one digit overall; the value
intpart + fracpart/10^k is built with `mkRat`. -/
def floatQ? (s : List Char) : Option ℚ :=
  match s.dropWhile Char.isDigit with
  | [] => if (s.takeWhile Char.isDigit).isEmpty then none
          else some (digitsToNat (s.takeWhile Char.isDigit) : ℚ)
  | '.' :: frac =>
    if frac.all Char.isDigit ∧ (s.takeWhile Char.isDigit ≠ [] ∨ frac ≠ []) then
      some (mkRat (digitsToNat (s.takeWhile Char.isDigit) * 10 ^ frac.length +
                   digitsToNat frac) (10 ^ frac.length))
    else none
  | _ => none

end PyStr

namespace Rx

/-- Regex abstract syntax.  Repetition is over single-character classes,
which covers every pattern in the sources. -/
inductive RE where
  | eps : RE
  | lit : List Char → Bool → RE
  | cls : (Char → Bool) → RE
  | rep : (Char → Bool) → Nat → Option Nat → Bool → RE
  | seq : RE → RE → RE
  | alt : RE → RE → RE
  | opt : RE → Bool → RE
  | grp : Nat → RE → RE
  | look : RE → RE
  | wb : RE
  | eos : RE

/-- Matcher state: previous character (for `\b`), remaining input, captures. -/
structure St where
  prev : Option Char
  rest : List Char
  caps : List (Nat × List Char)

def litMatches (ci : Bool) : List Char → List Char → Bool
  | [], _ => true
  | _ :: _, [] => false
  | p :: ps, c :: cs =>
    (if ci then p.toLower = c.toLower else p = c) && litMatches ci ps cs

def advance (st : St) (n : Nat) : St :=
  { prev := match (st.rest.take n).getLast? with
      | some c => some c
      | none => st.prev
    rest := st.rest.drop n
    caps := st.caps }

def wordAt : Option Char → Bool
  | some c => PyStr.isWordB c
  | none => false

def tryCounts (st : St) (k : St → Option St) : List Nat → Option St
  | [] => none
  | n :: ns =>
    match k (advance st n) with
    | some r => some r
    | none => tryCounts st k ns

/-- Candidate repetition counts, in backtracking order. -/
def countsFor (lo : Nat) (hi : Option Nat) (run : Nat) (greedy : Bool) : List Nat :=
  let m := match hi with
    | some h => min h run
    | none => run
  if lo > m then []
  else if greedy then (List.range (m - lo + 1)).map (fun i => m - i)
  else (List.range (m - lo + 1)).map (fun i => lo + i)

/-- Backtracking matcher in continuation-passing style (PCRE/Python order:
first alternative first, greedy repetitions longest-first). -/
def mmatch : RE → St → (St → Option St) → Option St
  | .eps, st, k => k st
  | .lit p ci, st, k =>
    if litMatches ci p st.rest then k (advance st p.length) else none
  | .cls f, st, k =>
    match st.rest with
    | c :: _ => if f c then k (advance st 1) else none
    | [] => none
  | .rep f lo hi g, st, k =>
    tryCounts st k (countsFor lo hi (st.rest.takeWhile f).length g)
  | .seq a b, st, k => mmatch a st (fun st' => mmatch b st' k)
  | .alt a b, st, k =>
    match mmatch a st k with
    | some r => some r
    | none => mmatch b st k
  | .opt r g, st, k =>
    if g then
      match mmatch r st k with
      | some res => some res
      | none => k st
    else
      match k st with
      | some res => some res
      | none => mmatch r st k
  | .grp i r, st, k =>
    mmatch r st (fun st' =>
      k { st' with caps := (i, st.rest.take (st.rest.length - st'.rest.length)) :: st'.caps })
  | .look r, st, k =>
    match mmatch r st some with
    | some _ => k st
    | none => none
  | .wb, st, k =>
    if wordAt st.prev != wordAt st.rest.head? then k st else none
  | .eos, st, k =>
    if st.rest.isEmpty then k st else none

/-- `re.search` scan: first start position admitting a match.
Returns (start, end, captures). -/
def searchAux (re : RE) : Option Char → List Char → Nat → Option (Nat × Nat × List (Nat × List Char))
  | prev, s, pos =>
    match mmatch re ⟨prev, s, []⟩ some, s with
    | some st', _ => some (pos, pos + (s.length - st'.rest.length), st'.caps)
    | none, [] => none
    | none, c :: cs => searchAux re (some c) cs (pos + 1)

def research (re : RE) (s : List Char) : Option (Nat × Nat × List (Nat × List Char)) :=
  searchAux re none s 0

/-- `re.match`: anchored at position 0. -/
def rematch (re : RE) (s : List Char) : Option (Nat × List (Nat × List Char)) :=
  match mmatch re ⟨none, s, []⟩ some with
  | some st' => some (s.length - st'.rest.length, st'.caps)
  | none => none

def sliceL (s : List Char) (a b : Nat) : List Char := (s.drop a).take (b - a)

def groupOf (caps : List (Nat × List Char)) (i : Nat) : List Char :=
  match caps.lookup i with
  | some g => g
  | none => []

/-- `re.finditer`: non-overlapping matches scanning left to right;
an empty match advances by one character.  Positions are absolute.
Structural recursion on a fuel bounded below by the input length (each
round consumes at least one character of a non-empty input). -/
def finditerAux (re : RE) : Nat → Option Char → List Char → Nat →
    List (Nat × Nat × List (Nat × List Char))
  | fuel, prev, s, base =>
    match searchAux re prev s 0 with
    | none => []
    | some (st, en, caps) =>
      let step := max en (st + 1)
      (base + st, base + en, caps) ::
        (match s, fuel with
         | [], _ => []
         | _ :: _, 0 => []
         | _ :: _, fuel' + 1 =>
           finditerAux re fuel' ((s.take step).getLast?) (s.drop step) (base + step))

def pyFinditer (re : RE) (s : List Char) : List (Nat × Nat × List (Nat × List Char)) :=
  finditerAux re s.length none s 0

/-- `re.findall` for a pattern without groups: the matched substrings. -/
def pyFindall (re : RE) (s : List Char) : List (List Char) :=
  (pyFinditer re s).map (fun m => sliceL s m.1 m.2.1)

/-- `re.sub(pattern, repl, s)` for a fixed replacement string. -/
def pySubGo (s repl : List Char) (ms : List (Nat × Nat × List (Nat × List Char))) (from_ : Nat) :
    List Char :=
  match ms with
  | [] => s.drop from_
  | (st, en, _) :: rest => sliceL s from_ st ++ repl ++ pySubGo s repl rest en

def pySub (re : RE) (repl : List Char) (s : List Char) : List Char :=
  pySubGo s repl (pyFinditer re s) 0

/-- `re.split(pattern, s)[0]`: the text before the first match (the whole
string when there is no match). -/
def pySplitHead (re : RE) (s : List Char) : List Char :=
  match research re s with
  | some (st, _, _) => s.take st
  | none => s

/-- Full `re.split` for a group-free pattern. -/
def pySplitGo (s : List Char) (ms : List (Nat × Nat × List (Nat × List Char))) (from_ : Nat) :
    List (List Char) :=
  match ms with
  | [] => [s.drop from_]
  | (st, en, _) :: rest => sliceL s from_ st :: pySplitGo s rest en

def pySplitAll (re : RE) (s : List Char) : List (List Char) :=
  pySplitGo s (pyFinditer re s) 0

def seqs : List RE → RE
  | [] => .eps
  | h :: t => t.foldl .seq h

def alts (hd : RE) (tl : List RE) : RE := tl.foldl .alt hd

end Rx

namespace DebitNote

open PyStr Rx

/-- Ordered replacement table of `normalize_text` (Python dict, insertion order). -/
def normReplacements : List (List Char × List Char) :=
  [("OOMEST1C".data, "DOMESTIC".data), ("OOMESTIC".data, "DOMESTIC".data),
   ("DQMESTIC".data, "DOMESTIC".data), ("XELPER".data, "HELPER".data),
   ("Roz".data, "R03".data), ("Ros".data, "R03".data), ("ROZ".data, "R03".data),
   ("To1".data, "(T01)".data), ("T01)".data, "(T01)".data),
   ("CQPY".data, "COPY".data), ("C0PY".data, "COPY".data), ("COPV".data, "COPY".data),
   ("COpy".data, "COPY".data), ("CQRY".data, "COPY".data), ("CQFY".data, "COPY".data)]

def applyReplacements (reps : List (List Char × List Char)) (s : List Char) : List Char :=
  reps.foldl (fun t p => replaceL p.1 p.2 t) s

/-- `normalize_text`: the ordered literal substring replacements. -/
def normalize_text (s : List Char) : List Char := applyReplacements normReplacements s

/-- `extract_first(pattern, text)`: first match's group 1, stripped. -/
def extractFirstDn (re : RE) (t : List Char) : List Char :=
  match research re t with
  | some (_, _, caps) => stripL (groupOf caps 1)
  | none => []

/-- Class `[O0Q]` under `re.IGNORECASE`. -/
def cO0Q (c : Char) : Bool := c = 'O' || c = 'o' || c = '0' || c = 'Q' || c = 'q'

/-- `ACC[O0Q]U?N?T\s+N[O0Q][.:;]?\s*([A-Z0-9 ()]+?)(?=\s+(POL|P0L|ENO|CLA)|\Z)`,
IGNORECASE.  (The capture inside the lookahead is unused in the source.) -/
def accountRe : RE := seqs
  [.lit "ACC".data true, .cls cO0Q,
   .opt (.cls fun c => c = 'U' || c = 'u') true,
   .opt (.cls fun c => c = 'N' || c = 'n') true,
   .lit "T".data true, .rep isSpaceB 1 none true,
   .lit "N".data true, .cls cO0Q,
   .opt (.cls fun c => c = '.' || c = ':' || c = ';') true,
   .rep isSpaceB 0 none true,
   .grp 1 (.rep (fun c => c.isAlpha || c.isDigit || c = ' ' || c = '(' || c = ')') 1 none false),
   .look (.alt (seqs [.rep isSpaceB 1 none true,
                      alts (.lit "POL".data true)
                        [.lit "P0L".data true, .lit "ENO".data true, .lit "CLA".data true]])
               .eos)]

/-- `\(+T01\)+` (in `clean_account_number`). -/
def t01Re : RE := seqs
  [.rep (fun c => c = '(') 1 none true, .lit "T01".data false,
   .rep (fun c => c = ')') 1 none true]

/-- `([A-Z0-9]{6,10})\s*(\(T01\))?` (case-sensitive; input already uppercased). -/
def accBaseRe : RE := seqs
  [.grp 1 (.rep (fun c => c.isUpper || c.isDigit) 6 (some 10) true),
   .rep isSpaceB 0 none true,
   .opt (.grp 2 (.lit "(T01)".data false)) true]

def clean_account_number (acc : List Char) : List Char :=
  if acc = [] then []
  else
    let a1 := upperL acc
    -- .replace("O","0").replace("Q","0").replace("S","5"): disjoint 1-char maps
    let a2 := a1.map fun c => if c = 'O' then '0' else if c = 'Q' then '0' else if c = 'S' then '5' else c
    let a3 := pySub t01Re "(T01)".data a2
    match research accBaseRe a3 with
    | some (_, _, caps) => groupOf caps 1 ++ " (T01)".data
    | none => a3

def extract_account_number_dn (t : List Char) : List Char :=
  let acc := match research accountRe t with
    | some (_, _, caps) => stripL (groupOf caps 1)
    | none => []
  clean_account_number acc

/-- `POLICY\s+N[O0Q][.:;]?\s*([A-Z0-9\-]{10,})`, IGNORECASE. -/
def policyRe : RE := seqs
  [.lit "POLICY".data true, .rep isSpaceB 1 none true,
   .lit "N".data true, .cls cO0Q,
   .opt (.cls fun c => c = '.' || c = ':' || c = ';') true,
   .rep isSpaceB 0 none true,
   .grp 1 (.rep (fun c => c.isAlpha || c.isDigit || c = '-') 10 none true)]

def extract_policy_number (t : List Char) : List Char := extractFirstDn policyRe t

/-- `ENO+R[S5]?\s*(?:N[O0Q])?[.:;]?\s*([A-Z0-9\-_ ]+)`, IGNORECASE. -/
def endorseRe : RE := seqs
  [.lit "EN".data true, .rep (fun c => c = 'O' || c = 'o') 1 none true,
   .lit "R".data true,
   .opt (.cls fun c => c = 'S' || c = 's' || c = '5') true,
   .rep isSpaceB 0 none true,
   .opt (seqs [.lit "N".data true, .cls cO0Q]) true,
   .opt (.cls fun c => c = '.' || c = ':' || c = ';') true,
   .rep isSpaceB 0 none true,
   .grp 1 (.rep (fun c => c.isAlpha || c.isDigit || c = '-' || c = '_' || c = ' ') 1 none true)]

/-- `(CLASS|POLICY|ACC)\b` (case-sensitive; input already uppercased). -/
def endorseStopRe : RE := seqs
  [.grp 1 (alts (.lit "CLASS".data false) [.lit "POLICY".data false, .lit "ACC".data false]),
   .wb]

/-- `(JAN|FEB|MAR|APR|MAY|JUN|JUL|AUG|SEP|OCT|NOV|DEC)([A-Z]?)(\d{1,4})`. -/
def monthAbbrRe : RE := seqs
  [.grp 1 (alts (.lit "JAN".data false)
     [.lit "FEB".data false, .lit "MAR".data false, .lit "APR".data false,
      .lit "MAY".data false, .lit "JUN".data false, .lit "JUL".data false,
      .lit "AUG".data false, .lit "SEP".data false, .lit "OCT".data false,
      .lit "NOV".data false, .lit "DEC".data false]),
   .grp 2 (.opt (.cls Char.isUpper) true),
   .grp 3 (.rep Char.isDigit 1 (some 4) true)]

def clean_endorsement_number (raw : List Char) : List Char :=
  if raw = [] then []
  else
    let r1 := upperL raw
    let r2 := pySplitHead endorseStopRe r1
    let r3 := r2.filter fun c => !(isSpaceB c || c = '_')
    let r4 := pySub (.rep (fun c => c = '-') 1 none true) "-".data r3
    let r5 := replaceL "RNOV".data "NOV".data
                (replaceL "TNO".data "NOV".data (replaceL "TNOV".data "NOV".data r4))
    match rematch monthAbbrRe r5 with
    | some (_, caps) =>
      replaceL "--".data "-".data
        (groupOf caps 1 ++ "-".data ++ groupOf caps 2 ++ groupOf caps 3)
    | none => r5

def extract_endorsement_number_dn (t : List Char) : List Char :=
  clean_endorsement_number (extractFirstDn endorseRe t)

/-- `(?:INSURED|CUSTOMER)\s+([A-Z ]{6,40})` (no flags: case-sensitive). -/
def insuredRe : RE := seqs
  [.alt (.lit "INSURED".data false) (.lit "CUSTOMER".data false),
   .rep isSpaceB 1 none true,
   .grp 1 (.rep (fun c => c.isUpper || c = ' ') 6 (some 40) true)]

/-- `\bFLAT\b|\bROOM\b|\bFLOOR\b`. -/
def flatRoomRe : RE :=
  alts (seqs [.wb, .lit "FLAT".data false, .wb])
    [seqs [.wb, .lit "ROOM".data false, .wb], seqs [.wb, .lit "FLOOR".data false, .wb]]

def extract_insured_or_agent (t : List Char) : List Char :=
  match research insuredRe t with
  | none => []
  | some (_, _, caps) =>
    let name := stripL (groupOf caps 1)
    stripL (pySplitHead flatRoomRe name)

/-- `CLAS[S]?\s*([0-9OQ]{2,3})[- ]*([A-Z ]+HELPER)`, IGNORECASE. -/
def classRe : RE := seqs
  [.lit "CLAS".data true,
   .opt (.cls fun c => c = 'S' || c = 's') true,
   .rep isSpaceB 0 none true,
   .grp 1 (.rep (fun c => c.isDigit || c = 'O' || c = 'o' || c = 'Q' || c = 'q') 2 (some 3) true),
   .rep (fun c => c = '-' || c = ' ') 0 none true,
   .grp 2 (seqs [.rep (fun c => c.isAlpha || c = ' ') 1 none true, .lit "HELPER".data true])]

def extract_insurance_class (t : List Char) : List Char :=
  match research classRe t with
  | none => []
  | some (_, _, caps) =>
    let code := (groupOf caps 1).map fun c => if c = 'O' then '0' else if c = 'Q' then '0' else c
    let cls := applyReplacements
      [("OOMESTIC".data, "DOMESTIC".data), ("DQMESTIC".data, "DOMESTIC".data),
       ("XELPER".data, "HELPER".data)] (upperL (groupOf caps 2))
    code ++ " ".data ++ cls

/-- The capturing group `(\d{1,2}\s+\w+\s+\d{4})` of the issue-date pattern. -/
def dnDateGrpRe : RE := seqs
  [.rep Char.isDigit 1 (some 2) true, .rep isSpaceB 1 none true,
   .rep isWordB 1 none true, .rep isSpaceB 1 none true,
   .rep Char.isDigit 4 (some 4) true]

/-- `DATE[:;]?\s*(\d{1,2}\s+\w+\s+\d{4})`, IGNORECASE|MULTILINE. -/
def dnDateRe : RE := seqs
  [.lit "DATE".data true,
   .opt (.cls fun c => c = ':' || c = ';') true,
   .rep isSpaceB 0 none true,
   .grp 1 dnDateGrpRe]

/-- The `day monthname year` grammar `\d{1,2}\s+\w+\s+\d{4}`: one or two
digits, whitespace, word characters, whitespace, four digits. -/
def DnDateShape (s : List Char) : Prop :=
  ∃ dd s1 w s2 y, s = dd ++ s1 ++ w ++ s2 ++ y ∧
    1 ≤ dd.length ∧ dd.length ≤ 2 ∧ dd.all Char.isDigit = true ∧
    1 ≤ s1.length ∧ s1.all isSpaceB = true ∧
    1 ≤ w.length ∧ w.all isWordB = true ∧
    1 ≤ s2.length ∧ s2.all isSpaceB = true ∧
    y.length = 4 ∧ y.all Char.isDigit = true

/-- `GROSS\s+PREMIUM`, IGNORECASE. -/
def grossRe : RE := seqs
  [.lit "GROSS".data true, .rep isSpaceB 1 none true, .lit "PREMIUM".data true]

/-- `\b\d{2,4}[., ]?\d{0,2}\b` (no flags). -/
def numTokRe : RE := seqs
  [.wb, .rep Char.isDigit 2 (some 4) true,
   .opt (.cls fun c => c = '.' || c = ',' || c = ' ') true,
   .rep Char.isDigit 0 (some 2) true, .wb]

/-- `n.replace(" ", "").replace(",", ".")` then `float(n)`. -/
def tokenValQ? (tok : List Char) : Option ℚ :=
  floatQ? ((tok.filter (· ≠ ' ')).map fun c => if c = ',' then '.' else c)

/-- The `values` list of `extract_manager_financials`: parsed numeric tokens
kept when strictly above the 50 floor, in document order. -/
def qualifyingValues (t : List Char) : List ℚ :=
  ((pyFindall numTokRe t).filterMap tokenValQ?).filter fun v => 50 < v

def copyTail : RE := seqs
  [.rep isSpaceB 0 none true, .lit "C".data true,
   .cls (fun c => c = 'O' || c = 'o' || c = '0'),
   .lit "P".data true,
   .cls (fun c => c = 'Y' || c = 'y' || c = 'V' || c = 'v')]

/-- `MANAG[EA]R\s*C[O0]P[YV]` etc., IGNORECASE, in source dict order. -/
def copyPatterns : List (String × RE) :=
  [("manager", seqs [.lit "MANAG".data true,
                     .cls (fun c => c = 'E' || c = 'e' || c = 'A' || c = 'a'),
                     .lit "R".data true, copyTail]),
   ("agent", seqs [.lit "AGENT".data true, copyTail]),
   ("account", seqs [.lit "ACCOUNT".data true, copyTail]),
   ("file", seqs [.lit "FILE".data true, copyTail])]

/-- `detect_copy_types`; the resulting Python `set` is modelled as the list of
detected keys in the pattern table's (insertion) order. -/
def detect_copy_types (t : List Char) : List String :=
  copyPatterns.filterMap fun p => if (research p.2 t).isSome then some p.1 else none

structure FinancialItem where
  gross_premium : ℚ
  commission : ℚ
  overriding_insurer : ℚ
  cost : ℚ
  profit : ℚ
  category : String
deriving DecidableEq, Repr

/-- The categories used to emit records: detected copy types, with the
`{"manager"}` fallback when none is detected. -/
def copyCats (t : List Char) : List String :=
  let c := detect_copy_types t
  if c.isEmpty then ["manager"] else c

def extract_manager_financials (t : List Char) : List FinancialItem :=
  if (research grossRe t).isNone then []
  else if (qualifyingValues t).length < 5 then []
  else
    (copyCats t).map fun c =>
      { gross_premium := (qualifyingValues t).getD ((qualifyingValues t).length - 5) 0
        commission := (qualifyingValues t).getD ((qualifyingValues t).length - 4) 0
        overriding_insurer := (qualifyingValues t).getD ((qualifyingValues t).length - 3) 0
        cost := (qualifyingValues t).getD ((qualifyingValues t).length - 2) 0
        profit := (qualifyingValues t).getD ((qualifyingValues t).length - 1) 0
        category := c }

structure DebitNoteDoc where
  account_number : String
  policy_number : String
  endorsement_number : String
  insured_or_agent : String
  issue_date : String
  insurance_class : String
  financials : List FinancialItem
deriving DecidableEq, Repr

def parse_debit_note_text (raw insured_or_agent : String) : DebitNoteDoc :=
  let text := normalize_text raw.data
  let ins := extract_insured_or_agent text
  { account_number := String.mk (clean_account_number (extract_account_number_dn text))
    policy_number := String.mk (extract_policy_number text)
    endorsement_number := String.mk (clean_endorsement_number (extract_endorsement_number_dn text))
    insured_or_agent := if ins = [] then insured_or_agent else String.mk ins
    issue_date := String.mk (extractFirstDn dnDateRe text)
    insurance_class := String.mk (applyReplacements
      [("0O3".data, "003".data), ("O03".data, "003".data), ("0o3".data, "003".data)]
      (extract_insurance_class text))
    financials := extract_manager_financials text }

end DebitNote

namespace AccountStatement

open PyStr Rx

/-- `TEXT_OCR_CORRECTIONS`, in source order. -/
def textOcrCorrections : List (List Char × List Char) :=
  [("i1".data, "11".data), ("Noyember".data, "November".data), ("20z5".data, "2025".data),
   ("EOWARD".data, "EDWARD".data), ("LEYEL".data, "LEVEL".data),
   ("MQNGKOK".data, "MONGKOK".data), ("MONGKOX".data, "MONGKOK".data),
   ("XQWLOON".data, "KOWLOON".data), ("XOWI_OON_".data, "KOWLOON".data),
   ("S2E".data, "SZE".data)]

/-- `NUMERIC_OCR_CORRECTIONS`, in source order. -/
def numericOcrCorrections : List (List Char × List Char) :=
  [("O".data, "0".data), ("Q".data, "0".data), ("l".data, "1".data), ("I".data, "1".data),
   ("7o".data, "70".data), ("QQ".data, "00".data)]

def apply_ocr_corrections (s : List Char) (numeric_only : Bool) : List Char :=
  let t := textOcrCorrections.foldl (fun t p => replaceL p.1 p.2 t) s
  if numeric_only then numericOcrCorrections.foldl (fun t p => replaceL p.1 p.2 t) t else t

/-! ### `datetime.strptime(s, "%d %B %Y")` / `.strftime("%Y-%m-%d")` model

`strptime` compiles `%d %B %Y` to the anchored, fully-consuming,
case-insensitive pattern `(3[01]|[12]\d|0[1-9]|[1-9]| [1-9])\s+(full month
name)\s+(\d\d\d\d)`, then `datetime(...)` validates the day against the
month (proleptic Gregorian) and requires year ≥ 1.  `%Y-%m-%d` output is
modelled zero-padded (as documented for `datetime.strftime`). -/

/-- The full month names recognized by `%B`, with their month numbers. -/
def monthTable : List (List Char × ℕ) :=
  [("january".data, 1), ("february".data, 2), ("march".data, 3), ("april".data, 4),
   ("may".data, 5), ("june".data, 6), ("july".data, 7), ("august".data, 8),
   ("september".data, 9), ("october".data, 10), ("november".data, 11),
   ("december".data, 12)]

def monthIdx? (tok : List Char) : Option ℕ := monthTable.lookup (tok.map Char.toLower)

def isLeap (y : ℕ) : Bool := y % 4 = 0 && (y % 100 ≠ 0 || y % 400 = 0)

def daysInMonth (y m : ℕ) : ℕ :=
  if m = 2 then (if isLeap y then 29 else 28)
  else if m = 4 ∨ m = 6 ∨ m = 9 ∨ m = 11 then 30
  else 31

/-- The `%d` alternation `(3[01]|[12]\d|0[1-9]|[1-9]| [1-9])`; returns the
day value and the remaining input.  (A digit after a 1-digit day would make
the following `\s+` fail, so the unique viable candidate is returned.) -/
def parseDayDMY : List Char → Option (ℕ × List Char)
  | [] => none
  | [a] => if a.isDigit ∧ 1 ≤ digitVal a then some (digitVal a, []) else none
  | a :: b :: r =>
    if a.isDigit ∧ b.isDigit then
      let n := 10 * digitVal a + digitVal b
      if 10 ≤ n ∧ n ≤ 31 then some (n, r)
      else if a = '0' ∧ 1 ≤ digitVal b then some (digitVal b, r)
      else none
    else if a.isDigit then
      if 1 ≤ digitVal a then some (digitVal a, b :: r) else none
    else if a = ' ' ∧ b.isDigit ∧ 1 ≤ digitVal b then some (digitVal b, r)
    else none

def strptimeDMY (s : List Char) : Option (ℕ × ℕ × ℕ) :=
  match parseDayDMY s with
  | none => none
  | some (d, r1) =>
    if (r1.takeWhile isSpaceB).isEmpty then none
    else
      match monthIdx? ((r1.dropWhile isSpaceB).takeWhile Char.isAlpha) with
      | none => none
      | some m =>
        if (((r1.dropWhile isSpaceB).dropWhile Char.isAlpha).takeWhile isSpaceB).isEmpty
        then none
        else
          match ((r1.dropWhile isSpaceB).dropWhile Char.isAlpha).dropWhile isSpaceB with
          | [y1, y2, y3, y4] =>
            if y1.isDigit ∧ y2.isDigit ∧ y3.isDigit ∧ y4.isDigit then
              if 1 ≤ digitsToNat [y1, y2, y3, y4] ∧ 1 ≤ d ∧
                  d ≤ daysInMonth (digitsToNat [y1, y2, y3, y4]) m
              then some (digitsToNat [y1, y2, y3, y4], m, d) else none
            else none
          | _ => none

def pad2 (n : ℕ) : List Char := [Nat.digitChar (n / 10 % 10), Nat.digitChar (n % 10)]

def pad4 (n : ℕ) : List Char :=
  [Nat.digitChar (n / 1000 % 10), Nat.digitChar (n / 100 % 10),
   Nat.digitChar (n / 10 % 10), Nat.digitChar (n % 10)]

def toIso (ymd : ℕ × ℕ × ℕ) : List Char :=
  pad4 ymd.1 ++ '-' :: pad2 ymd.2.1 ++ '-' :: pad2 ymd.2.2

/-- The ISO `YYYY-MM-DD` shape: ten characters, digits around two dashes. -/
def isIsoShape (s : List Char) : Bool :=
  match s with
  | [a, b, c, d, '-', e, f, '-', g, h] =>
    a.isDigit && b.isDigit && c.isDigit && d.isDigit &&
    e.isDigit && f.isDigit && g.isDigit && h.isDigit
  | _ => false

/-- `Issued Date\s*[:：]?\s*.*?(\d{1,2}\s+[A-Za-z]+\s+\d{4})`, IGNORECASE. -/
def issueDateRe : RE := seqs
  [.lit "Issued Date".data true, .rep isSpaceB 0 none true,
   .opt (.cls fun c => c = ':' || c = '：') true,
   .rep isSpaceB 0 none true,
   .rep (fun c => c ≠ '\n') 0 none false,
   .grp 1 (seqs [.rep Char.isDigit 1 (some 2) true, .rep isSpaceB 1 none true,
                 .rep Char.isAlpha 1 none true, .rep isSpaceB 1 none true,
                 .rep Char.isDigit 4 (some 4) true])]

def extract_issue_date (t : List Char) : List Char :=
  let text := apply_ocr_corrections t false
  match research issueDateRe text with
  | none => []
  | some (_, _, caps) =>
    match strptimeDMY (groupOf caps 1) with
    | some ymd => toIso ymd
    | none => []

/-- The scan of `extract_premium_due_date`: find a line containing
`PREMIUM DUE DATE` (uppercased) at index ≥ 1 and parse the previous line,
retrying after OCR corrections; on failure keep scanning. -/
def scanPremiumDue : List Char → List (List Char) → Option (List Char)
  | _, [] => none
  | prev, l :: ls =>
    if infixOfL "PREMIUM DUE DATE".data (upperL l) then
      match strptimeDMY (stripL prev) with
      | some ymd => some (toIso ymd)
      | none =>
        match strptimeDMY (apply_ocr_corrections (stripL prev) false) with
        | some ymd => some (toIso ymd)
        | none => scanPremiumDue l ls
    else scanPremiumDue l ls

def extract_premium_due_date (t : List Char) : List Char :=
  let text := apply_ocr_corrections t false
  let lines := splitlinesL text
  match lines with
  | [] => extract_issue_date text
  | l0 :: rest =>
    match scanPremiumDue l0 rest with
    | some d => d
    | none => extract_issue_date text

/-- `\d{1,2}\s+[A-Za-z]+\s+\d{4}` (prefix `re.match` in `extract_address`). -/
def addrDateRe : RE := seqs
  [.rep Char.isDigit 1 (some 2) true, .rep isSpaceB 1 none true,
   .rep Char.isAlpha 1 none true, .rep isSpaceB 1 none true,
   .rep Char.isDigit 4 (some 4) true]

def addressGo : Bool → List (List Char) → List (List Char)
  | _, [] => []
  | cap, l :: ls =>
    let l' := stripL l
    if l'.isEmpty then addressGo cap ls
    else if (rematch addrDateRe l').isSome then addressGo true ls
    else if infixOfL "EFFECTIVE DATE".data l' then []
    else if cap then l' :: addressGo cap ls
    else addressGo cap ls

def extract_address (t : List Char) : List Char :=
  List.intercalate " ".data (addressGo false (splitlinesL t))

/-- `ACCOUNT NUMBER\s*[:：]?\s*([A-Z0-9]+)`, IGNORECASE. -/
def accountNumRe : RE := seqs
  [.lit "ACCOUNT NUMBER".data true, .rep isSpaceB 0 none true,
   .opt (.cls fun c => c = ':' || c = '：') true,
   .rep isSpaceB 0 none true,
   .grp 1 (.rep (fun c => c.isAlpha || c.isDigit) 1 none true)]

def extract_account_number (t : List Char) : List Char :=
  let text := apply_ocr_corrections t false
  match research accountNumRe text with
  | some (_, _, caps) => groupOf caps 1
  | none => "N/A".data

/-- `clean_global_ocr` replacement table, in source (dict) order. -/
def globalOcrReplacements : List (List Char × List Char) :=
  [("T,".data, "TJ".data), ("Tj".data, "TJ".data), ("t,".data, "TJ".data),
   ("T.".data, "TJ".data), ("PFF25o".data, "PFF250".data),
   ("Ro".data, "R0".data), ("Q".data, "0".data)]

def clean_global_ocr (s : List Char) : List Char :=
  globalOcrReplacements.foldl (fun t p => replaceL p.1 p.2 t) s

/-- `^(\d)\s+(\d{3})\s+(\d{2})$` applied by `clean_number` (after `strip`). -/
def spacedThousands? (raw : List Char) : Option ℚ :=
  match raw with
  | [] => none
  | d :: rest =>
    if d.isDigit then
      if (rest.takeWhile isSpaceB).isEmpty then none
      else
        match rest.dropWhile isSpaceB with
        | a :: b :: c :: r2 =>
          if a.isDigit ∧ b.isDigit ∧ c.isDigit then
            if (r2.takeWhile isSpaceB).isEmpty then none
            else
              match r2.dropWhile isSpaceB with
              | [e, f] =>
                if e.isDigit ∧ f.isDigit then
                  -- digit+thousands "." cents, built with `mkRat`
                  some (mkRat (digitsToNat [d, a, b, c] * 100 + digitsToNat [e, f]) 100)
                else none
              | _ => none
          else none
        | _ => none
    else none

def clean_number_list (s : List Char) : ℚ :=
  if s.isEmpty then 0
  else
    let raw := stripL s
    match spacedThousands? raw with
    | some v => v
    | none =>
      let s1 := raw.map fun c => if c = 'Q' then '0' else if c = 'O' then '0' else if c = 'l' then '1' else c
      let s2 := s1.filter fun c => !isSpaceB c
      let s3 := s2.filter (· ≠ ',')
      let s4 := s3.filter fun c => c.isDigit || c = '.'
      (floatQ? s4).getD 0

def clean_number (s : String) : ℚ := clean_number_list s.data

/-- `clean_number` with its internal `try/except` made visible: the
`float` call may fail (`none`), and the `except` branch returns `0.0`;
every other path returns normally. -/
def clean_numberE (s : String) : Except String ℚ :=
  if s.data.isEmpty then .ok 0
  else
    let raw := stripL s.data
    match spacedThousands? raw with
    | some v => .ok v
    | none =>
      let s1 := raw.map fun c => if c = 'Q' then '0' else if c = 'O' then '0' else if c = 'l' then '1' else c
      let s2 := s1.filter fun c => !isSpaceB c
      let s3 := s2.filter (· ≠ ',')
      let s4 := s3.filter fun c => c.isDigit || c = '.'
      match floatQ? s4 with
      | some v => .ok v
      | none => .ok 0

/-- `([A-Za-z0-9,\-]+)\s+([\dOQol.,]+)\)`, IGNORECASE. -/
def pairRe : RE := seqs
  [.grp 1 (.rep (fun c => c.isAlphanum || c = ',' || c = '-') 1 none true),
   .rep isSpaceB 1 none true,
   .grp 2 (.rep (fun c => c.isDigit || c = 'O' || c = 'o' || c = 'Q' || c = 'q' ||
                          c = 'l' || c = 'L' || c = '.' || c = ',') 1 none true),
   .lit ")".data false]

structure PolicyNature where
  policy_number : String
  nature : ℚ
deriving DecidableEq, Repr

def extract_policy_nature_pairs (t : List Char) : List PolicyNature :=
  (pyFinditer pairRe t).map fun m =>
    let praw := groupOf m.2.2 1
    let nraw := groupOf m.2.2 2
    let policy := ((praw.filter (· ≠ ' ')).filter (· ≠ ',')).map fun c =>
      if c = 'o' then '0' else if c = 'O' then '0' else if c = 'l' then '1' else c
    let nclean := ((nraw.map fun c =>
      if c = 'O' then '0' else if c = 'Q' then '0' else if c = 'o' then '0'
      else if c = 'l' then '1' else c).filter (· ≠ ','))
    { policy_number := String.mk policy, nature := (floatQ? nclean).getD 0 }

structure StructEntry where
  effective_date : String
  debit_note : Option String
  premium : ℚ
deriving DecidableEq, Repr

/-- `^\d{2}/\d{2}/\d{4}$` on a stripped line. -/
def isDateLine (l : List Char) : Bool :=
  match l with
  | [a, b, s1, c, d, s2, e, f, g, h] =>
    a.isDigit && b.isDigit && s1 = '/' && c.isDigit && d.isDigit && s2 = '/' &&
    e.isDigit && f.isDigit && g.isDigit && h.isDigit
  | _ => false

/-- `^B[\w\-?]+$`, IGNORECASE, on a stripped line. -/
def isDebitLine (l : List Char) : Bool :=
  match l with
  | [] => false
  | c :: rest =>
    (c = 'B' || c = 'b') && !rest.isEmpty && rest.all fun c => isWordB c || c = '-' || c = '?'

/-- The stripped non-empty lines, as in the list comprehensions of the source. -/
def linesOfAS (t : List Char) : List (List Char) :=
  ((splitlinesL t).map stripL).filter fun l => !l.isEmpty

def headerPremiumGo : Option (List Char) → List (List Char) → ℚ
  | _, [] => 0
  | prev, l :: ls =>
    if isDateLine l then
      match prev with
      | some p => if p.any Char.isDigit then clean_number_list p else 0
      | none => 0
    else headerPremiumGo (some l) ls

def extract_header_premium_from_block (t : List Char) : ℚ :=
  headerPremiumGo none (linesOfAS t)

/-- `EFFECTIVE\s+DATE\s+DEBIT\s+NOTE\s+NO\.\s*(\d{2}/\d{2}/\d{4})\s+(B[\w\-?]+)`,
IGNORECASE. -/
def headerRe : RE := seqs
  [.lit "EFFECTIVE".data true, .rep isSpaceB 1 none true,
   .lit "DATE".data true, .rep isSpaceB 1 none true,
   .lit "DEBIT".data true, .rep isSpaceB 1 none true,
   .lit "NOTE".data true, .rep isSpaceB 1 none true,
   .lit "NO".data true, .lit ".".data false, .rep isSpaceB 0 none true,
   .grp 1 (seqs [.rep Char.isDigit 2 (some 2) true, .lit "/".data false,
                 .rep Char.isDigit 2 (some 2) true, .lit "/".data false,
                 .rep Char.isDigit 4 (some 4) true]),
   .rep isSpaceB 1 none true,
   .grp 2 (seqs [.cls (fun c => c = 'B' || c = 'b'),
                 .rep (fun c => isWordB c || c = '-' || c = '?') 1 none true])]

def extract_header_entry (t : List Char) : Option StructEntry :=
  match research headerRe t with
  | none => none
  | some (_, _, caps) =>
    some { effective_date := String.mk (groupOf caps 1)
           debit_note := some (String.mk (groupOf caps 2))
           premium := extract_header_premium_from_block t }

/-- One step of the `extract_date_debit_premium` scan: the entry built at a
date line and the number of following lines consumed (debit / premium). -/
def ddpStep (l : List Char) (rest : List (List Char)) : StructEntry × Nat :=
  match rest with
  | [] => ({ effective_date := String.mk l, debit_note := none, premium := 0 }, 0)
  | r1 :: rs =>
    if isDebitLine r1 then
      match rs with
      | [] => ({ effective_date := String.mk l, debit_note := some (String.mk r1), premium := 0 }, 1)
      | r2 :: _ =>
        if !isDateLine r2 && !isDebitLine r2 && r2.any Char.isDigit then
          ({ effective_date := String.mk l, debit_note := some (String.mk r1),
             premium := clean_number_list r2 }, 2)
        else ({ effective_date := String.mk l, debit_note := some (String.mk r1), premium := 0 }, 1)
    else
      if !isDateLine r1 && !isDebitLine r1 && r1.any Char.isDigit then
        ({ effective_date := String.mk l, debit_note := none, premium := clean_number_list r1 }, 1)
      else ({ effective_date := String.mk l, debit_note := none, premium := 0 }, 0)

/-- The `while i < len(lines)` scan, fuelled (structurally) by the line
count: each round consumes at least one line. -/
def ddpGo : Nat → List (List Char) → List StructEntry
  | _, [] => []
  | 0, _ => []
  | fuel + 1, l :: rest =>
    if isDateLine l then
      (ddpStep l rest).1 :: ddpGo fuel (rest.drop (ddpStep l rest).2)
    else ddpGo fuel rest

def extract_date_debit_premium (t : List Char) : List StructEntry :=
  ddpGo (linesOfAS t).length (linesOfAS t)

/-- `PREM[1I]UM\s*(.*?)(?:T[O0]TAL)\s+HXS`, DOTALL | IGNORECASE. -/
def bigRowRe : RE := seqs
  [.lit "PREM".data true, .cls (fun c => c = '1' || c = 'I' || c = 'i'),
   .lit "UM".data true, .rep isSpaceB 0 none true,
   .grp 1 (.rep (fun _ => true) 0 none false),
   .lit "T".data true, .cls (fun c => c = 'O' || c = 'o' || c = '0'),
   .lit "TAL".data true, .rep isSpaceB 1 none true, .lit "HXS".data true]

/-- The policy/nature pair sequence of `parse_entries` (on globally cleaned text). -/
def policyNaturePairsOf (t : List Char) : List PolicyNature :=
  match research bigRowRe t with
  | some (_, _, caps) => extract_policy_nature_pairs (groupOf caps 1)
  | none => []

/-- The date/debit/premium sequence of `parse_entries`: optional header entry
followed by the column entries (on globally cleaned text). -/
def structuredEntriesOf (t : List Char) : List StructEntry :=
  (match extract_header_entry t with
   | some e => [e]
   | none => []) ++ extract_date_debit_premium t

structure ASEntry where
  effective_date : String
  debit_note : Option String
  policy_number : Option String
  nature : Option ℚ
  premium : ℚ
deriving DecidableEq, Repr

def alignEntry (s : StructEntry) (p : Option PolicyNature) : ASEntry :=
  { effective_date := s.effective_date
    debit_note := s.debit_note
    policy_number := p.map (·.policy_number)
    nature := p.map (·.nature)
    premium := s.premium }

/-- The source's `for i in range(len(structured_entries))` loop aligning
entry `i` with pair `i` (missing pair ⇒ `None` policy/nature). -/
def zipAlign : List StructEntry → List PolicyNature → List ASEntry
  | [], _ => []
  | s :: ss, ps => alignEntry s ps.head? :: zipAlign ss ps.tail

def parse_entries (t : List Char) : List ASEntry :=
  let text := clean_global_ocr t
  zipAlign (structuredEntriesOf text) (policyNaturePairsOf text)

/-- Round `n / d` (with `d > 0`) to the nearest integer, ties to even
(Python `round` on the exact value).  `q = n.fdiv d` is the floor and
`r = n - q*d` the nonnegative remainder; the fraction is `r/d`. -/
def roundHalfEvenInt (n : ℤ) (d : ℕ) : ℤ :=
  let q := Int.fdiv n d
  let r := n - q * d
  if 2 * r < d then q else if (d : ℤ) < 2 * r then q + 1 else if q % 2 = 0 then q else q + 1

/-- Python `round(x, 2)` (on the exact rational value): round `100·x`
half-to-even, divide by 100. -/
def pyRound2 (x : ℚ) : ℚ := mkRat (roundHalfEvenInt (x.num * 100) x.den) 100

/-- Python truthiness of `e.get('policy_number')`: `None` and `""` are falsy. -/
def falsyPolicy : Option String → Bool
  | none => true
  | some s => s.isEmpty

structure ASDoc where
  issue_date : String
  premium_due_date : String
  account_number : String
  address : String
  total_premium_due : ℚ
  entries : List ASEntry
  warnings : List String
deriving DecidableEq, Repr

def parse_account_statement_text (raw _insured_or_agent : String) : ASDoc :=
  let text := apply_ocr_corrections raw.data false
  let entries := parse_entries text
  let t1 := pyRound2 (entries.foldl (fun a e => a + e.premium) 0)
  -- in the source the second sum ranges over the same (always numeric) premiums
  let total := if t1 = 0 then pyRound2 (entries.foldl (fun a e => a + e.premium) 0) else t1
  { issue_date := String.mk (extract_issue_date text)
    premium_due_date := String.mk (extract_premium_due_date text)
    account_number := String.mk (extract_account_number text)
    address := String.mk (extract_address text)
    total_premium_due := total
    entries := entries
    warnings := if entries.any fun e => falsyPolicy e.policy_number then
        ["Some policy numbers missing or unreliable."]
      else [] }

end AccountStatement

instance exceptDecEq {ε α : Type} [DecidableEq ε] [DecidableEq α] :
    DecidableEq (Except ε α) := fun x y =>
  match x, y with
  | .ok a, .ok b =>
    if h : a = b then .isTrue (h ▸ rfl) else .isFalse (fun he => h (Except.ok.inj he))
  | .error a, .error b =>
    if h : a = b then .isTrue (h ▸ rfl) else .isFalse (fun he => h (Except.error.inj he))
  | .ok _, .error _ => .isFalse (fun he => Except.noConfusion he)
  | .error _, .ok _ => .isFalse (fun he => Except.noConfusion he)

namespace RenewalNotice

open PyStr Rx

def normalize_ocr_text (s : List Char) : List Char :=
  if s.isEmpty then []
  else
    let t := s.map fun c => if c = '\r' then '\n' else c
    let lines := ((splitCharL '\n' t).map stripL).filter fun l => !l.isEmpty
    List.intercalate "\n".data (lines.map fun l => List.intercalate " ".data (splitWsL l))

/-- `extract_first` when the pattern has a group: group 1, stripped. -/
def extractFirstG1 (re : RE) (t : List Char) : List Char :=
  match research re t with
  | some (_, _, caps) => stripL (groupOf caps 1)
  | none => []

/-- `extract_first` when the pattern has no group: the whole match, stripped. -/
def extractFirstG0 (re : RE) (t : List Char) : List Char :=
  match research re t with
  | some (st, en, _) => stripL (sliceL t st en)
  | none => []

/-- The capturing group `(\d{2}/\d{2}/\d{4})` of `extract_date_after`. -/
def dateGroupRe : RE := seqs
  [.rep Char.isDigit 2 (some 2) true, .lit "/".data false,
   .rep Char.isDigit 2 (some 2) true, .lit "/".data false,
   .rep Char.isDigit 4 (some 4) true]

/-- `{label}.*?(\d{2}/\d{2}/\d{4})`, IGNORECASE | DOTALL. -/
def dateAfterRe (label : List Char) : RE := seqs
  [.lit label true, .rep (fun _ => true) 0 none false, .grp 1 dateGroupRe]

/-- The `dd/mm/yyyy` shape: two digits, `/`, two digits, `/`, four digits. -/
def isDdmmSlash (s : List Char) : Bool :=
  match s with
  | [a, b, c, d, e, f, g, h, i, j] =>
    a.isDigit && b.isDigit && (c == '/') && d.isDigit && e.isDigit && (f == '/') &&
    g.isDigit && h.isDigit && i.isDigit && j.isDigit
  | _ => false

def extract_date_after (label : String) (t : String) : String :=
  String.mk (extractFirstG1 (dateAfterRe label.data) t.data)

/-- `POLICY\s*NO\.?\s*[:\-]?\s*([A-Z0-9\-]+)`, IGNORECASE. -/
def policyRnRe : RE := seqs
  [.lit "POLICY".data true, .rep isSpaceB 0 none true, .lit "NO".data true,
   .opt (.cls fun c => c = '.') true, .rep isSpaceB 0 none true,
   .opt (.cls fun c => c = ':' || c = '-') true, .rep isSpaceB 0 none true,
   .grp 1 (.rep (fun c => c.isAlpha || c.isDigit || c = '-') 1 none true)]

def extract_policy_number_r (t : List Char) : List Char :=
  match research policyRnRe t with
  | some (_, _, caps) => stripL ((groupOf caps 1).filter (· ≠ ' '))
  | none => []

/-- `ACICODE\s+([A-Z0-9]+)`, IGNORECASE. -/
def acRe : RE := seqs
  [.lit "ACICODE".data true, .rep isSpaceB 1 none true,
   .grp 1 (.rep (fun c => c.isAlpha || c.isDigit) 1 none true)]

def extract_ac_code (t : List Char) : List Char := extractFirstG1 acRe t

def insuredStartRe : RE := seqs [.wb, .lit "INSURED".data true, .wb]

def policyNoStopRe : RE := seqs
  [.wb, .lit "POLICY".data true, .rep isSpaceB 0 none true, .lit "NO".data true]

/-- `CLASS\s+OF\s+INSURANCE`, IGNORECASE (removed by `re.sub`). -/
def classOfInsRe : RE := seqs
  [.lit "CLASS".data true, .rep isSpaceB 1 none true, .lit "OF".data true,
   .rep isSpaceB 1 none true, .lit "INSURANCE".data true]

/-- `\bROOM\b|\bBLOCK\b|\bFLAT\b|\bUNIT\b`, IGNORECASE. -/
def roomBlockRe : RE :=
  alts (seqs [.wb, .lit "ROOM".data true, .wb])
    [seqs [.wb, .lit "BLOCK".data true, .wb],
     seqs [.wb, .lit "FLAT".data true, .wb],
     seqs [.wb, .lit "UNIT".data true, .wb]]

def extract_insured_name (t : List Char) : List Char :=
  match research insuredStartRe t, research policyNoStopRe t with
  | some (_, en1, _), some (st2, _, _) =>
    let segment := sliceL t en1 st2
    let segment := pySub classOfInsRe [] segment
    let segment := pySplitHead roomBlockRe segment
    stripL (stripCharsL [' ', '\x7b'] segment)
  | _, _ => []

/-- `\bBUSINESS\s+INSURANCE\b`, IGNORECASE (no group: whole match returned). -/
def bizRe : RE := seqs
  [.wb, .lit "BUSINESS".data true, .rep isSpaceB 1 none true,
   .lit "INSURANCE".data true, .wb]

def extract_insurance_class_r (t : List Char) : List Char := extractFirstG0 bizRe t

/-- Maximal runs of ASCII digits (`re.findall(r"\d+", ·)`), fuelled
structurally by the input length. -/
def digitRunsGo : Nat → List Char → List (List Char)
  | _, [] => []
  | 0, _ => []
  | fuel + 1, c :: cs =>
    if c.isDigit then
      (c :: cs.takeWhile Char.isDigit) :: digitRunsGo fuel (cs.dropWhile Char.isDigit)
    else digitRunsGo fuel cs

def digitRuns (s : List Char) : List (List Char) := digitRunsGo s.length s

def clean_money (s : List Char) : ℚ :=
  if s.isEmpty then 0
  else
    let r := s.filter fun c => c.isDigit || isSpaceB c || c = ','
    let runs := digitRuns r
    if runs.isEmpty then 0 else (digitsToNat runs.flatten : ℚ)

/-- `TOTAL.*?\n(.*)`, IGNORECASE (no DOTALL: `.` excludes `\n`). -/
def totalRe : RE := seqs
  [.lit "TOTAL".data true, .rep (fun c => c ≠ '\n') 0 none false,
   .lit "\n".data false, .grp 1 (.rep (fun c => c ≠ '\n') 0 none true)]

def extract_total_earning (t : List Char) : ℚ :=
  match research totalRe t with
  | some (_, _, caps) => clean_money (groupOf caps 1)
  | none => 0

/-- `RENEWAL\s+PREMIUM.*?(\d[\d\s,]+)`, IGNORECASE | DOTALL. -/
def renewPremRe : RE := seqs
  [.lit "RENEWAL".data true, .rep isSpaceB 1 none true, .lit "PREMIUM".data true,
   .rep (fun _ => true) 0 none false,
   .grp 1 (seqs [.cls Char.isDigit,
                 .rep (fun c => c.isDigit || isSpaceB c || c = ',') 1 none true])]

def extract_renewal_premium (t : List Char) : ℚ :=
  match research renewPremRe t with
  | some (_, _, caps) => clean_money (groupOf caps 1)
  | none => 0

/-- `fix_ocr_numbers` correction map (sequential 1-char replaces with
digit targets, hence a pointwise map). -/
def fix_ocr_numbers (line : List Char) : List Char :=
  line.map fun c =>
    if c = 'Q' then '0' else if c = 'o' then '0' else if c = 'O' then '0'
    else if c = 'z' then '2' else if c = 'Z' then '2'
    else if c = 'l' then '1' else if c = '|' then '1' else if c = 'I' then '1'
    else c

/-- `EMPLOYEES.*?(?=TOTAL)`, IGNORECASE | DOTALL. -/
def empBlockRe : RE := seqs
  [.lit "EMPLOYEES".data true, .rep (fun _ => true) 0 none false,
   .look (.lit "TOTAL".data true)]

def renewalBlock? (t : List Char) : Option (List Char) :=
  match research empBlockRe t with
  | some (st, en, _) => some (sliceL t st en)
  | none => none

def blockLines (block : List Char) : List (List Char) :=
  ((splitCharL '\n' block).map stripL).filter fun l => !l.isEmpty

/-- `\s(?=\d[\.\-]?)` used by `re.split` on the labels line. -/
def labelSplitRe : RE := seqs
  [.cls isSpaceB,
   .look (seqs [.cls Char.isDigit, .opt (.cls fun c => c = '.' || c = '-') true])]

def blockLabels (block : List Char) : List (List Char) :=
  let lines := blockLines block
  let labelsLine := (lines.get? 1).getD []
  let cleanLine := labelsLine.filter fun c =>
    c.isAlphanum || isSpaceB c || c = '-' || c = '/' || c = '(' || c = ')'
  ((pySplitAll labelSplitRe cleanLine).map stripL).filter fun l => !l.isEmpty

def blockAmountLines (block : List Char) : List (List Char) :=
  (blockLines block).drop 2

def amountDigitComma (c : Char) : Bool := c.isDigit || c = ','

/-- `[\d,]+\.\d+|[\d,]+`. -/
def amountRe : RE :=
  .alt (seqs [.rep amountDigitComma 1 none true, .lit ".".data false,
              .rep Char.isDigit 1 none true])
       (.rep amountDigitComma 1 none true)

def amountTokens (line : List Char) : List (List Char) :=
  pyFindall amountRe (fix_ocr_numbers line)

/-- `float(s)` of a token after removing commas (`s.replace(",", "")`). -/
def tokVal (tk : List Char) : Option ℚ := floatQ? (tk.filter (· ≠ ','))

/-- The `[float(s) for s in num_strs_clean]` comprehension: left to right,
first failing token raises. -/
def parseTokensE : List (List Char) → Except String (List ℚ)
  | [] => .ok []
  | tk :: rest =>
    match tokVal tk, parseTokensE rest with
    | some v, .ok vs => .ok (v :: vs)
    | none, _ => .error "ValueError: could not convert string to float"
    | some _, .error e => .error e

/-- One amount line with the `float` calls visible: a token that does not
parse (commas only) raises `ValueError`; otherwise the maximum parsed value
(`0.0` for a line without numeric tokens). -/
def lineAmountE (line : List Char) : Except String ℚ :=
  if (amountTokens line).isEmpty then .ok 0
  else
    match parseTokensE (amountTokens line) with
    | .error e => .error e
    | .ok [] => .ok 0
    | .ok (n :: ns) => .ok (ns.foldl max n)

/-- The value `lineAmountE` returns when it does not raise. -/
def lineAmount (line : List Char) : ℚ :=
  if (amountTokens line).isEmpty then 0
  else
    match (amountTokens line).map fun tk => (tokVal tk).getD 0 with
    | [] => 0
    | n :: ns => ns.foldl max n

/-- Every numeric token on every amount line of the block parses as a float
after comma removal (no commas-only token). -/
def amountsOk (t : List Char) : Bool :=
  match renewalBlock? t with
  | none => true
  | some b => (blockAmountLines b).all fun l =>
      (amountTokens l).all fun tk => (tokVal tk).isSome

/-- Label sequence of the EMPLOYEES..TOTAL block ([] when there is no block). -/
def labelsOf (t : List Char) : List (List Char) :=
  match renewalBlock? t with
  | none => []
  | some b => blockLabels b

/-- Per-line amounts of the block ([] when there is no block). -/
def amountsOf (t : List Char) : List ℚ :=
  match renewalBlock? t with
  | none => []
  | some b => (blockAmountLines b).map lineAmount

structure RenewalEntry where
  label : String
  amount : ℚ
deriving DecidableEq, Repr

/-- The `for i, label in enumerate(labels)` zip with `0.0` default. -/
def zipEntriesGo : List (List Char) → List ℚ → List RenewalEntry
  | [], _ => []
  | l :: ls, amts =>
    { label := String.mk l
      amount := match amts with
        | a :: _ => a
        | [] => 0 } :: zipEntriesGo ls amts.tail

/-- The per-line amount loop, first exception propagating. -/
def mapAmountsE : List (List Char) → Except String (List ℚ)
  | [] => .ok []
  | l :: ls =>
    match lineAmountE l, mapAmountsE ls with
    | .ok a, .ok as_ => .ok (a :: as_)
    | .error e, _ => .error e
    | .ok _, .error e => .error e

def extract_renewal_entriesE (t : List Char) : Except String (List RenewalEntry) :=
  match renewalBlock? t with
  | none => .ok []
  | some b =>
    match mapAmountsE (blockAmountLines b) with
    | .error e => .error e
    | .ok amounts => .ok (zipEntriesGo (blockLabels b) amounts)

structure RenewalDoc where
  issue_date : String
  insured : String
  insurance_class : String
  policy_number : String
  expiry_date : String
  ac_code : String
  renewal_entries : List RenewalEntry
  total_earning : ℚ
  renewal_premium : ℚ
  uploaded_by : String
deriving DecidableEq, Repr

def parse_renewal_notice_text (raw insured_or_agent : String) : Except String RenewalDoc :=
  let text := normalize_ocr_text raw.data
  match extract_renewal_entriesE text with
  | .error e => .error e
  | .ok entries => .ok
    { issue_date := String.mk (extractFirstG1 (dateAfterRe "ISSUE DATE".data) text)
      insured := String.mk (extract_insured_name text)
      insurance_class := String.mk (extract_insurance_class_r text)
      policy_number := String.mk (extract_policy_number_r text)
      expiry_date := String.mk (extractFirstG1 (dateAfterRe "EXPIRY DATE".data) text)
      ac_code := String.mk (extract_ac_code text)
      renewal_entries := entries
      total_earning := extract_total_earning text
      renewal_premium := extract_renewal_premium text
      uploaded_by := insured_or_agent }

end RenewalNotice

/-! ### Dispatcher (`document_parser.py`) -/

inductive ParsedDoc where
  | dn : DebitNote.DebitNoteDoc → ParsedDoc
  | acct : AccountStatement.ASDoc → ParsedDoc
  | rn : RenewalNotice.RenewalDoc → ParsedDoc
deriving DecidableEq, Repr

def parse_document (raw_text doc_type : String) : Except String ParsedDoc :=
  if doc_type = "debit_note" then
    .ok (.dn (DebitNote.parse_debit_note_text raw_text ""))
  else if doc_type = "account_statement" then
    .ok (.acct (AccountStatement.parse_account_statement_text raw_text ""))
  else if doc_type = "renewal_notice" then
    match RenewalNotice.parse_renewal_notice_text raw_text "" with
    | .ok d => .ok (.rn d)
    | .error e => .error e
  else .error ("ValueError: Unsupported document type: " ++ doc_type)

/-! ## Supporting lemmas -/

namespace PyStr

theorem replaceLGo_id (old new : List Char) :
    ∀ fuel s, infixOfL old s = false → replaceLGo old new fuel s = s := by
  intro fuel
  induction fuel with
  | zero => intro s _; cases s <;> rfl
  | succ n ih =>
    intro s h
    cases s with
    | nil => rfl
    | cons c cs =>
      have h' := Bool.or_eq_false_iff.mp (h : (startsWithL old (c :: cs) || infixOfL old cs) = false)
      simp only [replaceLGo]
      rw [if_neg, ih cs h'.2]
      rintro ⟨-, hs⟩
      rw [h'.1] at hs
      cases hs

theorem replaceL_id (old new s : List Char)
    (h : infixOfL old s = false) : replaceL old new s = s :=
  replaceLGo_id old new s.length s h

theorem filter_eq_takeWhile_append (p : Char → Bool) (l : List Char) :
    l.filter p = l.takeWhile p ++ (l.dropWhile p).filter p := by
  induction l with
  | nil => rfl
  | cons c cs ih =>
    by_cases hc : p c
    · simp [List.filter_cons, List.takeWhile_cons, List.dropWhile_cons, hc, ih]
    · simp [List.filter_cons, List.takeWhile_cons, List.dropWhile_cons, hc]

/-- `mkRat` of a natural numerator is nonnegative. -/
theorem mkRat_natCast_nonneg (a : ℕ) (b : ℕ) : 0 ≤ mkRat (a : ℤ) b := by
  rw [Rat.mkRat_eq_div]
  positivity

theorem floatQ?_nonneg {s : List Char} {v : ℚ} (h : floatQ? s = some v) : 0 ≤ v := by
  unfold floatQ? at h
  split at h
  · split at h
    · exact absurd h (by simp)
    · obtain rfl := Option.some.inj h
      positivity
  · split at h
    · obtain rfl := Option.some.inj h
      exact_mod_cast mkRat_natCast_nonneg _ _
    · exact absurd h (by simp)
  · exact absurd h (by simp)

end PyStr

namespace AccountStatement

theorem spacedThousands?_nonneg {s : List Char} {v : ℚ}
    (h : spacedThousands? s = some v) : 0 ≤ v := by
  unfold spacedThousands? at h
  repeat' split at h
  all_goals try (obtain rfl := Option.some.inj h; exact_mod_cast PyStr.mkRat_natCast_nonneg _ _)
  all_goals exact Option.noConfusion h

theorem clean_number_list_nonneg (s : List Char) : 0 ≤ clean_number_list s := by
  unfold clean_number_list
  split
  · exact le_rfl
  · cases hsp : spacedThousands? (PyStr.stripL s) with
    | some v => simpa [hsp] using spacedThousands?_nonneg hsp
    | none =>
      simp only [hsp]
      cases hf : PyStr.floatQ? ((((PyStr.stripL s).map fun c =>
          if c = 'Q' then '0' else if c = 'O' then '0' else if c = 'l' then '1' else c).filter
            (fun c => !PyStr.isSpaceB c)).filter (· ≠ ',') |>.filter
              fun c => c.isDigit || c = '.') with
      | some v => simpa [hf] using PyStr.floatQ?_nonneg hf
      | none => simp [hf]

end AccountStatement

/-- C1: `clean_number` is total: for every input string, including the empty
string and strings with no digits, it returns (`Except.ok`) a value — the
`try/except` swallows every `float` failure into `0.0` — and the value is a
nonnegative rational (floats are modelled as exact rationals, where no
NaN/infinity exists). -/
theorem C1_clean_number_total (s : String) :
    AccountStatement.clean_numberE s = .ok (AccountStatement.clean_number s) ∧
    0 ≤ AccountStatement.clean_number s := by
  constructor
  · unfold AccountStatement.clean_numberE AccountStatement.clean_number
      AccountStatement.clean_number_list
    split
    · rfl
    · cases hsp : AccountStatement.spacedThousands? (PyStr.stripL s.data) with
      | some v => simp [hsp]
      | none =>
        simp only [hsp]
        split <;> simp_all
  · exact AccountStatement.clean_number_list_nonneg s.data

namespace DebitNote

theorem applyReplacements_id :
    ∀ (reps : List (List Char × List Char)) (s : List Char),
      (∀ p ∈ reps, PyStr.infixOfL p.1 s = false) →
      applyReplacements reps s = s := by
  intro reps
  induction reps with
  | nil => intro s _; rfl
  | cons p rest ih =>
    intro s h
    have hp := h p (List.mem_cons_self p rest)
    simp only [applyReplacements, List.foldl_cons]
    rw [PyStr.replaceL_id _ _ _ hp]
    exact ih s fun q hq => h q (List.mem_cons_of_mem _ hq)

end DebitNote

/-- C9: for every string containing no trigger substring of the normalizer's
replacement table, `normalize_text` is the identity, hence idempotent there. -/
theorem C9_normalize_noop_idempotent (x : String)
    (h : (DebitNote.normReplacements.all fun p => !(PyStr.infixOfL p.1 x.data)) = true) :
    DebitNote.normalize_text x.data = x.data ∧
    DebitNote.normalize_text (DebitNote.normalize_text x.data) =
      DebitNote.normalize_text x.data := by
  have hkeys : ∀ p ∈ DebitNote.normReplacements, PyStr.infixOfL p.1 x.data = false := by
    intro p hp
    have := List.all_eq_true.mp h p hp
    simpa using this
  have h1 : DebitNote.normalize_text x.data = x.data :=
    DebitNote.applyReplacements_id _ _ hkeys
  exact ⟨h1, by rw [h1, h1]⟩

/-- Witness for C9 at a concrete trigger-free string. -/
theorem C9_witness :
    ((DebitNote.normReplacements.all fun p => !(PyStr.infixOfL p.1 "HELLO WORLD 123".data)) = true) ∧
    DebitNote.normalize_text "HELLO WORLD 123".data = "HELLO WORLD 123".data :=
  ⟨by decide, (C9_normalize_noop_idempotent "HELLO WORLD 123" (by decide)).1⟩

namespace RenewalNotice

theorem digitRunsGo_flatten :
    ∀ fuel (s : List Char), s.length ≤ fuel →
      (digitRunsGo fuel s).flatten = s.filter Char.isDigit := by
  intro fuel
  induction fuel with
  | zero =>
    intro s h
    cases s with
    | nil => rfl
    | cons c cs => simp at h
  | succ n ih =>
    intro s h
    cases s with
    | nil => rfl
    | cons c cs =>
      simp only [List.length_cons, Nat.succ_le_succ_iff] at h
      by_cases hc : c.isDigit
      · have hlen : (cs.dropWhile Char.isDigit).length ≤ n := by
          have := (List.dropWhile_suffix (l := cs) Char.isDigit).sublist.length_le
          omega
        simp only [digitRunsGo]
        rw [if_pos hc, List.flatten_cons, ih _ hlen]
        rw [List.filter_cons_of_pos hc, PyStr.filter_eq_takeWhile_append Char.isDigit cs]
        simp
      · simp only [digitRunsGo]
        rw [if_neg hc, ih cs h, List.filter_cons_of_neg]
        simpa using hc

theorem filter_keep_digits (s : List Char) :
    (s.filter fun c => c.isDigit || PyStr.isSpaceB c || c = ',').filter Char.isDigit =
      s.filter Char.isDigit := by
  rw [List.filter_filter]
  apply List.filter_congr
  intro c _
  by_cases hc : c.isDigit <;> simp [hc]

theorem clean_money_eq (s : List Char) :
    clean_money s = (PyStr.digitsToNat (s.filter Char.isDigit) : ℚ) := by
  unfold clean_money
  by_cases he : s.isEmpty
  · obtain rfl := List.isEmpty_iff.mp he
    simp [PyStr.digitsToNat]
  · simp only [he, Bool.false_eq_true, if_false]
    have hjoin : (digitRuns (s.filter fun c => c.isDigit || PyStr.isSpaceB c || c = ',')).flatten =
        (s.filter fun c => c.isDigit || PyStr.isSpaceB c || c = ',').filter Char.isDigit :=
      digitRunsGo_flatten _ _ le_rfl
    by_cases hruns : (digitRuns (s.filter fun c => c.isDigit || PyStr.isSpaceB c || c = ',')).isEmpty
    · have hj : s.filter Char.isDigit = [] := by
        rw [← filter_keep_digits, ← hjoin, List.isEmpty_iff.mp hruns]
        rfl
      simp [hruns, hj, PyStr.digitsToNat]
    · simp only [hruns, Bool.false_eq_true, if_false]
      rw [hjoin, filter_keep_digits]

end RenewalNotice

/-- C10: the renewal money cleaner keeps only digits, whitespace and commas
(dropping the decimal point), and returns the natural number formed by
concatenating every remaining digit (0 when none); hence `"1,296.20"` maps to
`129620`, and `extract_total_earning` / `extract_renewal_premium` are always
(nonnegative) integers — a decimal amount never keeps its fractional part. -/
theorem C10_clean_money_concat_digits :
    (∀ s : List Char,
      RenewalNotice.clean_money s = (PyStr.digitsToNat (s.filter Char.isDigit) : ℚ)) ∧
    RenewalNotice.clean_money "1,296.20".data = 129620 ∧
    (∀ t : List Char, ∃ n : ℕ, RenewalNotice.extract_total_earning t = (n : ℚ)) ∧
    (∀ t : List Char, ∃ n : ℕ, RenewalNotice.extract_renewal_premium t = (n : ℚ)) := by
  refine ⟨RenewalNotice.clean_money_eq, by decide, ?_, ?_⟩
  · intro t
    unfold RenewalNotice.extract_total_earning
    cases h : Rx.research RenewalNotice.totalRe t with
    | none => exact ⟨0, by simp⟩
    | some m =>
      exact ⟨PyStr.digitsToNat ((Rx.groupOf m.2.2 1).filter Char.isDigit),
        by simp [RenewalNotice.clean_money_eq]⟩
  · intro t
    unfold RenewalNotice.extract_renewal_premium
    cases h : Rx.research RenewalNotice.renewPremRe t with
    | none => exact ⟨0, by simp⟩
    | some m =>
      exact ⟨PyStr.digitsToNat ((Rx.groupOf m.2.2 1).filter Char.isDigit),
        by simp [RenewalNotice.clean_money_eq]⟩

namespace DebitNote

/-- Every financial record the debit-note extractor emits carries figures
drawn from `qualifyingValues`, which are all strictly above the 50 floor;
in particular `cost > 50` always. -/
theorem financials_cost_gt_floor (t : List Char) (r : FinancialItem)
    (hr : r ∈ extract_manager_financials t) : 50 < r.cost := by
  unfold extract_manager_financials at hr
  split at hr
  · exact absurd hr (List.not_mem_nil r)
  · split at hr
    · exact absurd hr (List.not_mem_nil r)
    · obtain ⟨c, _, rfl⟩ := List.mem_map.mp hr
      show 50 < (qualifyingValues t).getD ((qualifyingValues t).length - 2) 0
      have hqv : ∀ x ∈ qualifyingValues t, 50 < x := by
        intro x hx
        unfold qualifyingValues at hx
        exact of_decide_eq_true ((List.mem_filter.mp hx).2)
      have hlen : (qualifyingValues t).length - 2 < (qualifyingValues t).length := by
        omega
      rw [List.getD_eq_getElem _ _ hlen]
      exact hqv _ (List.getElem_mem hlen)

end DebitNote

/-- C2 counterexample: no text containing the spec's `GROSS PREMIUM` label,
the tokens `1000 200 50 30 120` and a `MANAGER COPY` marker can yield the
record `{manager, 1000, 200, 50, 30, 120}`: every emitted figure is > 50,
so `cost = 30` (and `overriding_insurer = 50`) are impossible. -/
theorem C2_counterexample_floor : ¬ ∃ t : String,
    PyStr.infixOfL "GROSS PREMIUM".data t.data = true ∧
    PyStr.infixOfL "1000 200 50 30 120".data t.data = true ∧
    PyStr.infixOfL "MANAGER COPY".data t.data = true ∧
    DebitNote.extract_manager_financials t.data =
      [{ gross_premium := 1000, commission := 200, overriding_insurer := 50,
         cost := 30, profit := 120, category := "manager" }] := by
  rintro ⟨t, -, -, -, heq⟩
  have h50 := DebitNote.financials_cost_gt_floor t.data
    { gross_premium := 1000, commission := 200, overriding_insurer := 50,
      cost := 30, profit := 120, category := "manager" }
    (by rw [heq]; exact List.mem_singleton.mpr rfl)
  norm_num at h50

/-- C2 (amended): with the five numeric tokens separated so the token
scanner keeps them apart and all five above the 50 floor
(`1000 200 5100 300 120`), the extractor emits exactly one `manager`
record carrying them in order; with the original `1000 200 50 30 120`
tokens it emits no record, since only three qualifying values remain. -/
theorem C2_amended_manager_record :
    DebitNote.extract_manager_financials
        "DEBIT NOTE\nGROSS PREMIUM\n1000  200  5100  300  120\nMANAGER COPY\n".data =
      [{ gross_premium := 1000, commission := 200, overriding_insurer := 5100,
         cost := 300, profit := 120, category := "manager" }] ∧
    DebitNote.extract_manager_financials
        "GROSS PREMIUM\n1000 200 50 30 120\nMANAGER COPY\n".data = [] := by
  constructor <;> decide

/-- C3: whenever the normalized text has a `GROSS PREMIUM` label and at
least five qualifying numeric values (tokens parsed and kept when > 50),
`extract_manager_financials` emits exactly one record per category in
`copyCats` (the detected copy types, or the single `"manager"` default),
each carrying the last five qualifying values in document order; with
fewer than five qualifying values it returns the empty list. -/
theorem C3_financials_last_five (t : List Char) :
    ((Rx.research DebitNote.grossRe t).isSome = true →
      5 ≤ (DebitNote.qualifyingValues t).length →
      DebitNote.extract_manager_financials t =
        (DebitNote.copyCats t).map fun c =>
          { gross_premium :=
              (DebitNote.qualifyingValues t).getD ((DebitNote.qualifyingValues t).length - 5) 0
            commission :=
              (DebitNote.qualifyingValues t).getD ((DebitNote.qualifyingValues t).length - 4) 0
            overriding_insurer :=
              (DebitNote.qualifyingValues t).getD ((DebitNote.qualifyingValues t).length - 3) 0
            cost :=
              (DebitNote.qualifyingValues t).getD ((DebitNote.qualifyingValues t).length - 2) 0
            profit :=
              (DebitNote.qualifyingValues t).getD ((DebitNote.qualifyingValues t).length - 1) 0
            category := c }) ∧
    ((DebitNote.qualifyingValues t).length < 5 →
      DebitNote.extract_manager_financials t = []) := by
  constructor
  · intro hg h5
    unfold DebitNote.extract_manager_financials
    rw [if_neg (by simp [Option.isNone_iff_eq_none]; exact Option.isSome_iff_ne_none.mp hg)]
    rw [if_neg (by omega)]
  · intro h5
    unfold DebitNote.extract_manager_financials
    by_cases hg : (Rx.research DebitNote.grossRe t).isNone
    · rw [if_pos hg]
    · rw [if_neg hg, if_pos h5]

/-- Witness for C3: a concrete text with an `AGENT COPY` marker and six
well-separated qualifying values; the last five become the one record. -/
theorem C3_witness :
    (Rx.research DebitNote.grossRe
        "GROSS PREMIUM\n100  200  300  400  500  600\nAGENT COPY\n".data).isSome = true ∧
    5 ≤ (DebitNote.qualifyingValues
        "GROSS PREMIUM\n100  200  300  400  500  600\nAGENT COPY\n".data).length ∧
    DebitNote.extract_manager_financials
        "GROSS PREMIUM\n100  200  300  400  500  600\nAGENT COPY\n".data =
      [{ gross_premium := 200, commission := 300, overriding_insurer := 400,
         cost := 500, profit := 600, category := "agent" }] := by
  refine ⟨by decide, by decide, ?_⟩
  rw [(C3_financials_last_five
    "GROSS PREMIUM\n100  200  300  400  500  600\nAGENT COPY\n".data).1 (by decide) (by decide)]
  decide

/-- C4 counterexample: for the recognized tag `renewal_notice` the dispatcher
does not always return without raising — the renewal parser's `float` call
propagates a `ValueError` through `parse_document` on a commas-only token. -/
theorem C4_counterexample_renewal_raises :
    parse_document "EMPLOYEES\nW0RK 2PLAY\nx,,y\nTOTAL 77" "renewal_notice" =
      .error "ValueError: could not convert string to float" := by decide

/-- C4 (amended): `parse_document` fails with the unsupported-type error on
every tag outside the closed set, and on the three recognized tags returns
the corresponding parser's result — for `debit_note` and
`account_statement` always `ok`, for `renewal_notice` propagating whatever
exception the renewal parser itself raises. -/
theorem C4_amended_dispatch (raw dt : String) :
    (dt ≠ "debit_note" → dt ≠ "account_statement" → dt ≠ "renewal_notice" →
      parse_document raw dt = .error ("ValueError: Unsupported document type: " ++ dt)) ∧
    parse_document raw "debit_note" = .ok (.dn (DebitNote.parse_debit_note_text raw "")) ∧
    parse_document raw "account_statement" =
      .ok (.acct (AccountStatement.parse_account_statement_text raw "")) ∧
    parse_document raw "renewal_notice" =
      (RenewalNotice.parse_renewal_notice_text raw "").map ParsedDoc.rn := by
  refine ⟨?_, rfl, rfl, ?_⟩
  · intro h1 h2 h3
    simp [parse_document, h1, h2, h3]
  · show parse_document raw "renewal_notice" = _
    unfold parse_document
    cases h : RenewalNotice.parse_renewal_notice_text raw "" <;> simp [h, Except.map]

/-- Witness for C4 at the unsupported tag `unknown_type`. -/
theorem C4_witness :
    parse_document "" "unknown_type" =
      .error "ValueError: Unsupported document type: unknown_type" :=
  (C4_amended_dispatch "" "unknown_type").1 (by decide) (by decide) (by decide)

namespace AccountStatement

theorem digitChar_mod_ten_isDigit (n : ℕ) : (Nat.digitChar (n % 10)).isDigit = true := by
  have h : n % 10 < 10 := Nat.mod_lt _ (by norm_num)
  generalize n % 10 = k at h
  interval_cases k <;> rfl

theorem isIsoShape_toIso (ymd : ℕ × ℕ × ℕ) : isIsoShape (toIso ymd) = true := by
  obtain ⟨y, m, d⟩ := ymd
  simp [toIso, pad4, pad2, isIsoShape, digitChar_mod_ten_isDigit]

theorem extract_issue_date_shape (t : List Char) :
    extract_issue_date t = [] ∨ isIsoShape (extract_issue_date t) = true := by
  unfold extract_issue_date
  cases h : Rx.research issueDateRe (apply_ocr_corrections t false) with
  | none => left; simp [h]
  | some m =>
    cases hd : strptimeDMY (Rx.groupOf m.2.2 1) with
    | none => left; simp [h, hd]
    | some ymd => right; simp [h, hd, isIsoShape_toIso]

theorem scanPremiumDue_shape :
    ∀ (ls : List (List Char)) (prev d : List Char),
      scanPremiumDue prev ls = some d → isIsoShape d = true := by
  intro ls
  induction ls with
  | nil => intro prev d h; cases h
  | cons l rest ih =>
    intro prev d h
    unfold scanPremiumDue at h
    split at h
    · split at h
      · obtain rfl := Option.some.inj h
        exact isIsoShape_toIso _
      · split at h
        · obtain rfl := Option.some.inj h
          exact isIsoShape_toIso _
        · exact ih _ _ h
    · exact ih _ _ h

theorem extract_premium_due_date_shape (t : List Char) :
    extract_premium_due_date t = [] ∨ isIsoShape (extract_premium_due_date t) = true := by
  unfold extract_premium_due_date
  cases hl : PyStr.splitlinesL (apply_ocr_corrections t false) with
  | nil => simpa [hl] using extract_issue_date_shape (apply_ocr_corrections t false)
  | cons l0 rest =>
    cases hs : scanPremiumDue l0 rest with
    | none => simpa [hl, hs] using extract_issue_date_shape (apply_ocr_corrections t false)
    | some d =>
      right
      simpa [hl, hs] using scanPremiumDue_shape rest l0 d hs

end AccountStatement

/-! ### Engine metatheory for the date-extraction claims

A successful `mmatch` always reaches its continuation on a suffix of the
input, repetitions consume exactly the characters their class admits, and
a capturing group records precisely the consumed substring.  These lemmas
characterize the captured text of the two date patterns and the
ISO rendering of the account-statement date pipeline. -/

theorem length_eq_four_ex {α : Type} (l : List α) (h : l.length = 4) :
    ∃ a b c d, l = [a, b, c, d] := by
  rcases l with _ | ⟨a, _ | ⟨b, _ | ⟨c, _ | ⟨d, _ | ⟨e, t⟩⟩⟩⟩⟩ <;> simp at h
  exact ⟨a, b, c, d, rfl⟩

namespace PyStr

theorem digitVal_lt_ten (c : Char) (h : c.isDigit = true) : digitVal c < 10 := by
  unfold Char.isDigit at h
  rw [Bool.and_eq_true] at h
  obtain ⟨h1, h2⟩ := h
  have h3 : c ≤ '9' := of_decide_eq_true h2
  have h4 : c.toNat ≤ 57 := by
    have h5 := Char.le_def.mp h3
    simpa [Char.toNat] using h5
  unfold digitVal
  omega

theorem digitVal_digitChar (k : ℕ) (h : k < 10) : digitVal (Nat.digitChar k) = k := by
  interval_cases k <;> decide

theorem digit_not_space (c : Char) (h : c.isDigit = true) : isSpaceB c = false := by
  by_contra hb
  rw [Bool.not_eq_false] at hb
  simp only [isSpaceB, Bool.or_eq_true, decide_eq_true_eq] at hb
  rcases hb with (((((rfl | rfl) | rfl) | rfl) | rfl) | rfl) <;> simp [Char.isDigit] at h

/-- `str.strip()` is the identity on a string whose first and last
characters are not whitespace. -/
theorem stripL_eq_self_of (s : List Char)
    (hh : ∀ c, s.head? = some c → isSpaceB c = false)
    (hl : ∀ c, s.getLast? = some c → isSpaceB c = false) : stripL s = s := by
  cases s with
  | nil => rfl
  | cons a t =>
    have ha : isSpaceB a = false := hh a rfl
    unfold stripL
    rw [List.dropWhile_cons, if_neg (by simp [ha])]
    cases hq : (a :: t).reverse with
    | nil => simp at hq
    | cons z zs =>
      have hz : isSpaceB z = false := by
        apply hl
        rw [← List.head?_reverse, hq]
        rfl
      rw [List.dropWhile_cons, if_neg (by simp [hz])]
      conv_lhs => rw [← hq]
      exact List.reverse_reverse _

theorem takeWhile_ge_split (f : Char → Bool) :
    ∀ (n : ℕ) (s : List Char), n ≤ (s.takeWhile f).length →
      ∃ u v, s = u ++ v ∧ u.length = n ∧ u.all f = true := by
  intro n
  induction n with
  | zero => intro s _; exact ⟨[], s, rfl, rfl, rfl⟩
  | succ n ih =>
    intro s h
    cases s with
    | nil => simp at h
    | cons c cs =>
      by_cases hc : f c = true
      · rw [List.takeWhile_cons, if_pos hc] at h
        simp only [List.length_cons, Nat.succ_le_succ_iff] at h
        obtain ⟨u, v, rfl, hu, hall⟩ := ih cs h
        exact ⟨c :: u, v, rfl, by simp [hu], by simp [hc, hall]⟩
      · rw [List.takeWhile_cons, if_neg hc] at h
        simp at h

end PyStr

namespace Rx

theorem mmatch_seq (a b : RE) (st : St) (k : St → Option St) :
    mmatch (.seq a b) st k = mmatch a st (fun s => mmatch b s k) := rfl

theorem mmatch_grp (i : ℕ) (a : RE) (st : St) (k : St → Option St) :
    mmatch (.grp i a) st k = mmatch a st (fun s =>
      k { s with caps := (i, st.rest.take (st.rest.length - s.rest.length)) :: s.caps }) := rfl

theorem advance_rest (st : St) (n : ℕ) : (advance st n).rest = st.rest.drop n := rfl

theorem advance_caps (st : St) (n : ℕ) : (advance st n).caps = st.caps := rfl

theorem tryCounts_ex :
    ∀ (ns : List ℕ) (st : St) (k : St → Option St) (r : St),
      tryCounts st k ns = some r → ∃ n, n ∈ ns ∧ k (advance st n) = some r := by
  intro ns
  induction ns with
  | nil => intro st k r h; cases h
  | cons n ns ih =>
    intro st k r h
    unfold tryCounts at h
    cases hk : k (advance st n) with
    | some r2 =>
      rw [hk] at h
      obtain rfl : r2 = r := Option.some.inj h
      exact ⟨n, by simp, hk⟩
    | none =>
      rw [hk] at h
      obtain ⟨m, hm, hk2⟩ := ih st k r h
      exact ⟨m, by simp [hm], hk2⟩

theorem countsFor_exact (n run : ℕ) (g : Bool) (c : ℕ)
    (h : c ∈ countsFor n (some n) run g) : c = n ∧ n ≤ run := by
  simp only [countsFor] at h
  by_cases hle : n ≤ run
  · rw [Nat.min_eq_left hle] at h
    rw [if_neg (by omega)] at h
    have hone : n - n + 1 = 1 := by omega
    rw [hone] at h
    cases g <;> simp at h <;> omega
  · rw [Nat.min_eq_right (by omega)] at h
    rw [if_pos (by omega)] at h
    cases h

theorem countsFor_ge (lo : ℕ) (hi : Option ℕ) (run : ℕ) (g : Bool) (c : ℕ)
    (h : c ∈ countsFor lo hi run g) :
    lo ≤ c ∧ c ≤ run ∧ ∀ b, hi = some b → c ≤ b := by
  cases hi with
  | none =>
    simp only [countsFor] at h
    by_cases hle : lo ≤ run
    · rw [if_neg (by omega)] at h
      cases g <;> simp at h <;>
        (obtain ⟨i, hi2, rfl⟩ := h) <;>
        exact ⟨by omega, by omega, fun b hb => by cases hb⟩
    · rw [if_pos (by omega)] at h
      cases h
  | some b =>
    simp only [countsFor] at h
    by_cases hle : lo ≤ min b run
    · rw [if_neg (by omega)] at h
      have hb1 : min b run ≤ b := Nat.min_le_left _ _
      have hb2 : min b run ≤ run := Nat.min_le_right _ _
      cases g <;> simp at h <;>
        (obtain ⟨i, hi2, rfl⟩ := h) <;>
        exact ⟨by omega, by omega, fun b2 hb => by cases hb; omega⟩
    · rw [if_pos (by omega)] at h
      cases h

theorem mmatch_rep_exact (f : Char → Bool) (n : ℕ) (g : Bool) (st : St)
    (k : St → Option St) (r : St)
    (h : mmatch (.rep f n (some n) g) st k = some r) :
    n ≤ (st.rest.takeWhile f).length ∧ k (advance st n) = some r := by
  unfold mmatch at h
  obtain ⟨c, hm, hk⟩ := tryCounts_ex _ st k r h
  obtain ⟨rfl, hrun⟩ := countsFor_exact n _ g c hm
  exact ⟨hrun, hk⟩

theorem mmatch_rep_le (f : Char → Bool) (lo : ℕ) (hi : Option ℕ) (g : Bool) (st : St)
    (k : St → Option St) (r : St)
    (h : mmatch (.rep f lo hi g) st k = some r) :
    ∃ n, lo ≤ n ∧ n ≤ (st.rest.takeWhile f).length ∧
      (∀ b, hi = some b → n ≤ b) ∧ k (advance st n) = some r := by
  unfold mmatch at h
  obtain ⟨c, hm, hk⟩ := tryCounts_ex _ st k r h
  obtain ⟨h1, h2, h3⟩ := countsFor_ge lo hi _ g c hm
  exact ⟨c, h1, h2, h3, hk⟩

theorem mmatch_lit_ex (p : List Char) (ci : Bool) (st : St) (k : St → Option St) (r : St)
    (h : mmatch (.lit p ci) st k = some r) :
    litMatches ci p st.rest = true ∧ k (advance st p.length) = some r := by
  unfold mmatch at h
  by_cases hl : litMatches ci p st.rest = true
  · rw [if_pos hl] at h; exact ⟨hl, h⟩
  · rw [if_neg hl] at h; cases h

theorem litMatches_single (c : Char) (v : List Char)
    (h : litMatches false [c] v = true) : ∃ w, v = c :: w := by
  cases v with
  | nil => cases h
  | cons d w =>
    unfold litMatches at h
    simp at h
    exact ⟨w, by rw [h.1]⟩

/-- A successful match invokes its continuation on a suffix state: the
consumed characters are an initial segment of the state's rest. -/
theorem mmatch_consume :
    ∀ (re : RE) (st : St) (k : St → Option St) (r : St),
      mmatch re st k = some r →
      ∃ st2 pre, st.rest = pre ++ st2.rest ∧ k st2 = some r := by
  intro re
  induction re with
  | eps =>
    intro st k r h
    exact ⟨st, [], by simp, h⟩
  | lit p ci =>
    intro st k r h
    obtain ⟨_, hk⟩ := mmatch_lit_ex p ci st k r h
    exact ⟨advance st p.length, st.rest.take p.length,
      by rw [advance_rest]; exact (List.take_append_drop _ _).symm, hk⟩
  | cls f =>
    intro st k r h
    unfold mmatch at h
    split at h
    next c cs heq =>
      by_cases hc : f c = true
      · rw [if_pos hc] at h
        exact ⟨advance st 1, [c], by rw [advance_rest, heq]; simp, h⟩
      · rw [if_neg hc] at h; cases h
    next heq => cases h
  | rep f lo hi g =>
    intro st k r h
    obtain ⟨n, _, _, _, hk⟩ := mmatch_rep_le f lo hi g st k r h
    exact ⟨advance st n, st.rest.take n,
      by rw [advance_rest]; exact (List.take_append_drop _ _).symm, hk⟩
  | seq a b iha ihb =>
    intro st k r h
    rw [mmatch_seq] at h
    obtain ⟨s1, p1, e1, h1⟩ := iha st _ r h
    obtain ⟨s2, p2, e2, h2⟩ := ihb s1 k r h1
    exact ⟨s2, p1 ++ p2, by rw [e1, e2, List.append_assoc], h2⟩
  | alt a b iha ihb =>
    intro st k r h
    unfold mmatch at h
    cases hm : mmatch a st k with
    | some r2 =>
      rw [hm] at h
      obtain rfl : r2 = r := Option.some.inj h
      exact iha st k _ hm
    | none =>
      rw [hm] at h
      exact ihb st k r h
  | opt a g ih =>
    intro st k r h
    unfold mmatch at h
    cases g with
    | true =>
      rw [if_pos rfl] at h
      cases hm : mmatch a st k with
      | some r2 =>
        rw [hm] at h
        obtain rfl : r2 = r := Option.some.inj h
        exact ih st k _ hm
      | none =>
        rw [hm] at h
        exact ⟨st, [], by simp, h⟩
    | false =>
      rw [if_neg (by simp)] at h
      cases hm : k st with
      | some r2 =>
        rw [hm] at h
        obtain rfl : r2 = r := Option.some.inj h
        exact ⟨st, [], by simp, hm⟩
      | none =>
        rw [hm] at h
        exact ih st k r h
  | grp i a ih =>
    intro st k r h
    rw [mmatch_grp] at h
    obtain ⟨s1, p1, e1, h1⟩ := ih st _ r h
    exact ⟨{ s1 with
      caps := (i, st.rest.take (st.rest.length - s1.rest.length)) :: s1.caps },
      p1, e1, h1⟩
  | look a ih =>
    intro st k r h
    unfold mmatch at h
    cases hm : mmatch a st some with
    | some r2 => rw [hm] at h; exact ⟨st, [], by simp, h⟩
    | none => rw [hm] at h; cases h
  | wb =>
    intro st k r h
    unfold mmatch at h
    by_cases hc : (wordAt st.prev != wordAt st.rest.head?) = true
    · rw [if_pos hc] at h; exact ⟨st, [], by simp, h⟩
    · rw [if_neg hc] at h; cases h
  | eos =>
    intro st k r h
    unfold mmatch at h
    by_cases hc : st.rest.isEmpty = true
    · rw [if_pos hc] at h; exact ⟨st, [], by simp, h⟩
    · rw [if_neg hc] at h; cases h

/-- `re.search` succeeds exactly through a successful `mmatch` at some
scan position: the match's captures are those of a run on a suffix. -/
theorem searchAux_ex (re : RE) :
    ∀ (s : List Char) (prev : Option Char) (pos st en : ℕ)
      (caps : List (ℕ × List Char)),
      searchAux re prev s pos = some (st, en, caps) →
      ∃ pre rest0 prev2 stF, s = pre ++ rest0 ∧
        mmatch re ⟨prev2, rest0, []⟩ some = some stF ∧ caps = stF.caps := by
  intro s
  induction s with
  | nil =>
    intro prev pos st en caps h
    unfold searchAux at h
    cases hm : mmatch re ⟨prev, [], []⟩ some with
    | some stF =>
      rw [hm] at h
      have h2 := Option.some.inj h
      exact ⟨[], [], prev, stF, rfl, hm, (congrArg (fun p => p.2.2) h2).symm⟩
    | none =>
      rw [hm] at h
      cases h
  | cons c cs ih =>
    intro prev pos st en caps h
    unfold searchAux at h
    cases hm : mmatch re ⟨prev, c :: cs, []⟩ some with
    | some stF =>
      rw [hm] at h
      have h2 := Option.some.inj h
      exact ⟨[], c :: cs, prev, stF, rfl, hm, (congrArg (fun p => p.2.2) h2).symm⟩
    | none =>
      rw [hm] at h
      obtain ⟨pre, rest0, prev2, stF, he, hmm, hc⟩ := ih (some c) (pos + 1) st en caps h
      exact ⟨c :: pre, rest0, prev2, stF, by simp [he], hmm, hc⟩

theorem research_ex (re : RE) (s : List Char) (st en : ℕ) (caps : List (ℕ × List Char))
    (h : research re s = some (st, en, caps)) :
    ∃ pre rest0 prev2 stF, s = pre ++ rest0 ∧
      mmatch re ⟨prev2, rest0, []⟩ some = some stF ∧ caps = stF.caps :=
  searchAux_ex re s none 0 st en caps h

end Rx

namespace RenewalNotice

open PyStr Rx

/-- The `(\d{2}/\d{2}/\d{4})` group consumes exactly ten characters of the
`dd/mm/yyyy` shape. -/
theorem dateGroup_consume :
    ∀ (st : St) (k : St → Option St) (r : St),
      mmatch dateGroupRe st k = some r →
      ∃ s2, k s2 = some r ∧ st.rest = st.rest.take 10 ++ s2.rest ∧
        (st.rest.take 10).length = 10 ∧ s2.caps = st.caps ∧
        isDdmmSlash (st.rest.take 10) = true := by
  intro st k r h
  rw [show dateGroupRe = .seq (.seq (.seq (.seq (.rep Char.isDigit 2 (some 2) true)
        (.lit "/".data false)) (.rep Char.isDigit 2 (some 2) true))
        (.lit "/".data false)) (.rep Char.isDigit 4 (some 4) true) from rfl] at h
  rw [mmatch_seq, mmatch_seq, mmatch_seq, mmatch_seq] at h
  obtain ⟨hlen1, h1⟩ := mmatch_rep_exact Char.isDigit 2 true st _ r h
  obtain ⟨u1, v1, he1, hu1len, hu1all⟩ := takeWhile_ge_split Char.isDigit 2 st.rest hlen1
  have hv1 : (advance st 2).rest = v1 := by
    rw [advance_rest, he1, List.drop_left' hu1len]
  obtain ⟨hlit1, h2⟩ := mmatch_lit_ex "/".data false (advance st 2) _ r h1
  rw [hv1] at hlit1
  obtain ⟨v1x, rfl⟩ := litMatches_single '/' v1 hlit1
  have hv2 : (advance (advance st 2) ("/".data).length).rest = v1x := by
    rw [advance_rest, hv1]
    rfl
  obtain ⟨hlen2, h3⟩ := mmatch_rep_exact Char.isDigit 2 true
    (advance (advance st 2) ("/".data).length) _ r h2
  rw [hv2] at hlen2
  obtain ⟨u2, v2, he2, hu2len, hu2all⟩ := takeWhile_ge_split Char.isDigit 2 v1x hlen2
  have hv3 : (advance (advance (advance st 2) ("/".data).length) 2).rest = v2 := by
    rw [advance_rest, hv2, he2, List.drop_left' hu2len]
  obtain ⟨hlit2, h4⟩ := mmatch_lit_ex "/".data false
    (advance (advance (advance st 2) ("/".data).length) 2) _ r h3
  rw [hv3] at hlit2
  obtain ⟨v2x, rfl⟩ := litMatches_single '/' v2 hlit2
  have hv4 : (advance (advance (advance (advance st 2) ("/".data).length) 2)
      ("/".data).length).rest = v2x := by
    rw [advance_rest, hv3]
    rfl
  obtain ⟨hlen3, h5⟩ := mmatch_rep_exact Char.isDigit 4 true
    (advance (advance (advance (advance st 2) ("/".data).length) 2) ("/".data).length) _ r h4
  rw [hv4] at hlen3
  obtain ⟨u3, v3, he3, hu3len, hu3all⟩ := takeWhile_ge_split Char.isDigit 4 v2x hlen3
  have hv5 : (advance (advance (advance (advance (advance st 2) ("/".data).length) 2)
      ("/".data).length) 4).rest = v3 := by
    rw [advance_rest, hv4, he3, List.drop_left' hu3len]
  have hst : st.rest = (u1 ++ '/' :: u2 ++ '/' :: u3) ++ v3 := by
    rw [he1, he2, he3]
    simp
  have hPlen : (u1 ++ '/' :: u2 ++ '/' :: u3).length = 10 := by
    simp [hu1len, hu2len, hu3len]
  have htake : st.rest.take 10 = u1 ++ '/' :: u2 ++ '/' :: u3 := by
    rw [hst, List.take_left' hPlen]
  obtain ⟨a, b, rfl⟩ := List.length_eq_two.mp hu1len
  obtain ⟨c, d, rfl⟩ := List.length_eq_two.mp hu2len
  obtain ⟨e, f, g, hh, rfl⟩ := length_eq_four_ex u3 hu3len
  simp only [List.all_cons, List.all_nil, Bool.and_eq_true, and_true] at hu1all hu2all hu3all
  refine ⟨advance (advance (advance (advance (advance st 2) ("/".data).length) 2)
      ("/".data).length) 4, h5, ?_, ?_, rfl, ?_⟩
  · rw [htake, hv5]
    exact hst
  · rw [htake]
    exact hPlen
  · rw [htake]
    simp [isDdmmSlash, hu1all, hu2all, hu3all]

theorem stripL_of_ddmm (s : List Char) (h : isDdmmSlash s = true) : stripL s = s := by
  rcases s with _ | ⟨a, _ | ⟨b, _ | ⟨c, _ | ⟨d, _ | ⟨e, _ | ⟨f, _ | ⟨g, _ | ⟨h2, _ |
    ⟨i, _ | ⟨j, _ | ⟨z, t⟩⟩⟩⟩⟩⟩⟩⟩⟩⟩⟩
  all_goals try exact Bool.noConfusion h
  have h3 : (a.isDigit && b.isDigit && (c == '/') && d.isDigit && e.isDigit && (f == '/') &&
      g.isDigit && h2.isDigit && i.isDigit && j.isDigit) = true := h
  simp only [Bool.and_eq_true, beq_iff_eq] at h3
  apply stripL_eq_self_of
  · intro cx hcx
    obtain rfl := Option.some.inj hcx
    exact digit_not_space _ h3.1.1.1.1.1.1.1.1.1
  · intro cx hcx
    have hgl : ([a, b, c, d, e, f, g, h2, i, j] : List Char).getLast? = some j := rfl
    rw [hgl] at hcx
    obtain rfl := Option.some.inj hcx
    exact digit_not_space _ h3.2

/-- A successful search for `{label}.*?(\d{2}/\d{2}/\d{4})` captures, as
group 1, a ten-character `dd/mm/yyyy`-shaped contiguous substring of the
input. -/
theorem dateAfter_capture (label t : List Char) (st en : ℕ) (caps : List (ℕ × List Char))
    (h : Rx.research (dateAfterRe label) t = some (st, en, caps)) :
    isDdmmSlash (Rx.groupOf caps 1) = true ∧
    ∃ pre post, t = pre ++ Rx.groupOf caps 1 ++ post := by
  obtain ⟨pre0, rest0, prev2, stF, he0, hm, hcaps⟩ := research_ex _ t st en caps h
  rw [show dateAfterRe label = .seq (.seq (.lit label true)
      (.rep (fun _ => true) 0 none false)) (.grp 1 dateGroupRe) from rfl] at hm
  rw [mmatch_seq] at hm
  obtain ⟨s1, p1, e1, h1⟩ := mmatch_consume _ ⟨prev2, rest0, []⟩ _ stF hm
  rw [mmatch_grp] at h1
  obtain ⟨s2, hk2, hsp, hlen10, hcaps2, hshape⟩ := dateGroup_consume s1 _ stF h1
  have hstF : stF = { s2 with
      caps := (1, s1.rest.take (s1.rest.length - s2.rest.length)) :: s2.caps } :=
    (Option.some.inj hk2).symm
  have hdiff : s1.rest.length - s2.rest.length = 10 := by
    have hlen := congrArg List.length hsp
    rw [List.length_append, hlen10] at hlen
    omega
  have hcap : Rx.groupOf stF.caps 1 = s1.rest.take 10 := by
    rw [hstF]
    simp [Rx.groupOf, List.lookup, hdiff]
  rw [hcaps, hcap]
  refine ⟨hshape, pre0 ++ p1, s2.rest, ?_⟩
  have e2 : rest0 = p1 ++ s1.rest := e1
  rw [he0, e2]
  conv_lhs => rw [hsp]
  simp

/-- `extract_date_after` either returns `""` (no match) or returns the
matched group — a `dd/mm/yyyy`-shaped contiguous substring of the input —
verbatim. -/
theorem extract_date_after_char :
    ∀ label t : String,
      (Rx.research (dateAfterRe label.data) t.data = none ∧
        extract_date_after label t = "") ∨
      ∃ st en caps,
        Rx.research (dateAfterRe label.data) t.data = some (st, en, caps) ∧
        (extract_date_after label t).data = Rx.groupOf caps 1 ∧
        isDdmmSlash (Rx.groupOf caps 1) = true ∧
        ∃ pre post, t.data = pre ++ Rx.groupOf caps 1 ++ post := by
  intro label t
  cases h : Rx.research (dateAfterRe label.data) t.data with
  | none =>
    refine Or.inl ⟨rfl, ?_⟩
    unfold extract_date_after extractFirstG1
    rw [h]
  | some trip =>
    obtain ⟨st, en, caps⟩ := trip
    obtain ⟨hshape, pre, post, hsub⟩ := dateAfter_capture label.data t.data st en caps h
    refine Or.inr ⟨st, en, caps, rfl, ?_, hshape, pre, post, hsub⟩
    unfold extract_date_after extractFirstG1
    rw [h]
    exact stripL_of_ddmm _ hshape

end RenewalNotice

namespace DebitNote

open PyStr Rx

/-- The `(\d{1,2}\s+\w+\s+\d{4})` group consumes exactly a
`day monthname year`-shaped block of characters. -/
theorem dnDateGrp_consume :
    ∀ (st : St) (k : St → Option St) (r : St),
      mmatch dnDateGrpRe st k = some r →
      ∃ s2 cap, k s2 = some r ∧ st.rest = cap ++ s2.rest ∧ s2.caps = st.caps ∧
        DnDateShape cap := by
  intro st k r h
  rw [show dnDateGrpRe = .seq (.seq (.seq (.seq (.rep Char.isDigit 1 (some 2) true)
        (.rep isSpaceB 1 none true)) (.rep isWordB 1 none true))
        (.rep isSpaceB 1 none true)) (.rep Char.isDigit 4 (some 4) true) from rfl] at h
  rw [mmatch_seq, mmatch_seq, mmatch_seq, mmatch_seq] at h
  obtain ⟨n1, hn1lo, hn1run, hn1hi, h1⟩ := mmatch_rep_le Char.isDigit 1 (some 2) true st _ r h
  obtain ⟨u1, v1, he1, hu1len, hu1all⟩ := takeWhile_ge_split Char.isDigit n1 st.rest hn1run
  have hv1 : (advance st n1).rest = v1 := by
    rw [advance_rest, he1, List.drop_left' hu1len]
  obtain ⟨n2, hn2lo, hn2run, hn2hi, h2⟩ :=
    mmatch_rep_le isSpaceB 1 none true (advance st n1) _ r h1
  rw [hv1] at hn2run
  obtain ⟨u2, v2, he2, hu2len, hu2all⟩ := takeWhile_ge_split isSpaceB n2 v1 hn2run
  have hv2 : (advance (advance st n1) n2).rest = v2 := by
    rw [advance_rest, hv1, he2, List.drop_left' hu2len]
  obtain ⟨n3, hn3lo, hn3run, hn3hi, h3⟩ :=
    mmatch_rep_le isWordB 1 none true (advance (advance st n1) n2) _ r h2
  rw [hv2] at hn3run
  obtain ⟨u3, v3, he3, hu3len, hu3all⟩ := takeWhile_ge_split isWordB n3 v2 hn3run
  have hv3 : (advance (advance (advance st n1) n2) n3).rest = v3 := by
    rw [advance_rest, hv2, he3, List.drop_left' hu3len]
  obtain ⟨n4, hn4lo, hn4run, hn4hi, h4⟩ :=
    mmatch_rep_le isSpaceB 1 none true (advance (advance (advance st n1) n2) n3) _ r h3
  rw [hv3] at hn4run
  obtain ⟨u4, v4, he4, hu4len, hu4all⟩ := takeWhile_ge_split isSpaceB n4 v3 hn4run
  have hv4 : (advance (advance (advance (advance st n1) n2) n3) n4).rest = v4 := by
    rw [advance_rest, hv3, he4, List.drop_left' hu4len]
  obtain ⟨hlen5, h5⟩ := mmatch_rep_exact Char.isDigit 4 true
    (advance (advance (advance (advance st n1) n2) n3) n4) _ r h4
  rw [hv4] at hlen5
  obtain ⟨u5, v5, he5, hu5len, hu5all⟩ := takeWhile_ge_split Char.isDigit 4 v4 hlen5
  have hv5 : (advance (advance (advance (advance (advance st n1) n2) n3) n4) 4).rest = v5 := by
    rw [advance_rest, hv4, he5, List.drop_left' hu5len]
  refine ⟨advance (advance (advance (advance (advance st n1) n2) n3) n4) 4,
    u1 ++ (u2 ++ (u3 ++ (u4 ++ u5))), h5, ?_, rfl, ?_⟩
  · rw [hv5, he1, he2, he3, he4, he5]
    simp
  · refine ⟨u1, u2, u3, u4, u5, by simp, ?_, ?_, hu1all, ?_, hu2all, ?_, hu3all, ?_,
      hu4all, hu5len, hu5all⟩
    · omega
    · have := hn1hi 2 rfl
      omega
    · omega
    · omega
    · omega

theorem stripL_of_dnshape (s : List Char) (h : DnDateShape s) : stripL s = s := by
  obtain ⟨dd, s1, w, s2, y, rfl, h1, h2, h3, h4, h5, h6, h7, h8, h9, h10, h11⟩ := h
  obtain ⟨e, f, g, j, rfl⟩ := length_eq_four_ex y h10
  have hj : j.isDigit = true := by
    simp only [List.all_cons, List.all_nil, Bool.and_eq_true, and_true] at h11
    exact h11.2.2.2
  have hgl : (dd ++ s1 ++ w ++ s2 ++ [e, f, g, j]).getLast? = some j := by
    rw [List.getLast?_append, List.getLast?_append, List.getLast?_append, List.getLast?_append]
    rfl
  apply stripL_eq_self_of
  · intro cx hcx
    cases dd with
    | nil => simp at h1
    | cons a t =>
      have ha : a.isDigit = true := by
        simp only [List.all_cons, Bool.and_eq_true] at h3
        exact h3.1
      simp only [List.cons_append, List.head?_cons] at hcx
      obtain rfl := Option.some.inj hcx
      exact digit_not_space _ ha
  · intro cx hcx
    rw [hgl] at hcx
    obtain rfl := Option.some.inj hcx
    exact digit_not_space _ hj

/-- A successful search for `DATE[:;]?\s*(\d{1,2}\s+\w+\s+\d{4})` captures,
as group 1, a `day monthname year`-shaped contiguous substring of the
input. -/
theorem dnDate_capture (t : List Char) (st en : ℕ) (caps : List (ℕ × List Char))
    (h : Rx.research dnDateRe t = some (st, en, caps)) :
    DnDateShape (Rx.groupOf caps 1) ∧ ∃ pre post, t = pre ++ Rx.groupOf caps 1 ++ post := by
  obtain ⟨pre0, rest0, prev2, stF, he0, hm, hcaps⟩ := research_ex _ t st en caps h
  rw [show dnDateRe = .seq (.seq (.seq (.lit "DATE".data true)
      (.opt (.cls fun c => c = ':' || c = ';') true)) (.rep isSpaceB 0 none true))
      (.grp 1 dnDateGrpRe) from rfl] at hm
  rw [mmatch_seq] at hm
  obtain ⟨s1, p1, e1, h1⟩ := mmatch_consume _ ⟨prev2, rest0, []⟩ _ stF hm
  rw [mmatch_grp] at h1
  obtain ⟨s2, cap, hk2, hsp, hcaps2, hshape⟩ := dnDateGrp_consume s1 _ stF h1
  have hstF : stF = { s2 with
      caps := (1, s1.rest.take (s1.rest.length - s2.rest.length)) :: s2.caps } :=
    (Option.some.inj hk2).symm
  have hdiff : s1.rest.length - s2.rest.length = cap.length := by
    have hlen := congrArg List.length hsp
    rw [List.length_append] at hlen
    omega
  have htake : s1.rest.take cap.length = cap := by
    rw [hsp, List.take_left' rfl]
  have hcap : Rx.groupOf stF.caps 1 = cap := by
    rw [hstF]
    simp [Rx.groupOf, List.lookup, hdiff, htake]
  rw [hcaps, hcap]
  refine ⟨hshape, pre0 ++ p1, s2.rest, ?_⟩
  have e2 : rest0 = p1 ++ s1.rest := e1
  rw [he0, e2]
  conv_lhs => rw [hsp]
  simp

/-- The debit-note issue-date extraction either returns `[]` (no match) or
returns the matched group — a `day monthname year`-shaped contiguous
substring of the (normalized) text — verbatim. -/
theorem extractFirstDn_dnDate_char :
    ∀ t : List Char,
      (Rx.research dnDateRe t = none ∧ extractFirstDn dnDateRe t = []) ∨
      ∃ st en caps, Rx.research dnDateRe t = some (st, en, caps) ∧
        extractFirstDn dnDateRe t = Rx.groupOf caps 1 ∧
        DnDateShape (Rx.groupOf caps 1) ∧
        ∃ pre post, t = pre ++ Rx.groupOf caps 1 ++ post := by
  intro t
  cases h : Rx.research dnDateRe t with
  | none =>
    refine Or.inl ⟨rfl, ?_⟩
    unfold extractFirstDn
    rw [h]
  | some trip =>
    obtain ⟨st, en, caps⟩ := trip
    obtain ⟨hshape, pre, post, hsub⟩ := dnDate_capture t st en caps h
    refine Or.inr ⟨st, en, caps, rfl, ?_, hshape, pre, post, hsub⟩
    unfold extractFirstDn
    rw [h]
    exact stripL_of_dnshape _ hshape

end DebitNote

namespace AccountStatement

open PyStr Rx

theorem digitsToNat_four_lt (a b c d : Char) (ha : a.isDigit = true) (hb : b.isDigit = true)
    (hc : c.isDigit = true) (hd : d.isDigit = true) : digitsToNat [a, b, c, d] < 10000 := by
  have va := digitVal_lt_ten a ha
  have vb := digitVal_lt_ten b hb
  have vc := digitVal_lt_ten c hc
  have vd := digitVal_lt_ten d hd
  simp only [digitsToNat, List.foldl_cons, List.foldl_nil]
  omega

/-- Reading back the zero-padded four-digit year. -/
theorem digitsToNat_pad4 (y : ℕ) (h : y < 10000) : digitsToNat (pad4 y) = y := by
  have h1 := digitVal_digitChar (y / 1000 % 10) (Nat.mod_lt _ (by norm_num))
  have h2 := digitVal_digitChar (y / 100 % 10) (Nat.mod_lt _ (by norm_num))
  have h3 := digitVal_digitChar (y / 10 % 10) (Nat.mod_lt _ (by norm_num))
  have h4 := digitVal_digitChar (y % 10) (Nat.mod_lt _ (by norm_num))
  simp only [digitsToNat, pad4, List.foldl_cons, List.foldl_nil, h1, h2, h3, h4]
  omega

/-- Reading back the zero-padded two-digit month or day. -/
theorem digitsToNat_pad2 (m : ℕ) (h : m < 100) : digitsToNat (pad2 m) = m := by
  have h1 := digitVal_digitChar (m / 10 % 10) (Nat.mod_lt _ (by norm_num))
  have h2 := digitVal_digitChar (m % 10) (Nat.mod_lt _ (by norm_num))
  simp only [digitsToNat, pad2, List.foldl_cons, List.foldl_nil, h1, h2]
  omega

theorem lookup_range_bounds :
    ∀ (l : List (List Char × ℕ)) (key : List Char) (m : ℕ),
      (∀ p ∈ l, 1 ≤ p.2 ∧ p.2 ≤ 12) → l.lookup key = some m → 1 ≤ m ∧ m ≤ 12 := by
  intro l
  induction l with
  | nil => intro key m _ h; cases h
  | cons p rest ih =>
    intro key m hall h
    obtain ⟨k, v⟩ := p
    by_cases hb : (key == k) = true
    · simp only [List.lookup, hb] at h
      obtain rfl := Option.some.inj h
      exact hall (k, v) (by simp)
    · rw [Bool.not_eq_true] at hb
      simp only [List.lookup, hb] at h
      exact ih key m (fun q hq => hall q (by simp [hq])) h

theorem monthTable_vals : ∀ p ∈ monthTable, 1 ≤ p.2 ∧ p.2 ≤ 12 := by decide

theorem monthIdx?_bounds (tok : List Char) (m : ℕ) (h : monthIdx? tok = some m) :
    1 ≤ m ∧ m ≤ 12 :=
  lookup_range_bounds monthTable (tok.map Char.toLower) m monthTable_vals h

theorem daysInMonth_le (y m : ℕ) : daysInMonth y m ≤ 31 := by
  unfold daysInMonth
  split_ifs <;> omega

/-- The ISO output's three fields read back as exactly the year, month and
day that were rendered. -/
theorem toIso_fields (y m d : ℕ) (hy : y < 10000) (hm : m < 100) (hd : d < 100) :
    digitsToNat ((toIso (y, m, d)).take 4) = y ∧
    digitsToNat (((toIso (y, m, d)).drop 5).take 2) = m ∧
    digitsToNat ((toIso (y, m, d)).drop 8) = d := by
  have h1 : (toIso (y, m, d)).take 4 = pad4 y := rfl
  have h2 : ((toIso (y, m, d)).drop 5).take 2 = pad2 m := rfl
  have h3 : (toIso (y, m, d)).drop 8 = pad2 d := rfl
  rw [h1, h2, h3]
  exact ⟨digitsToNat_pad4 y hy, digitsToNat_pad2 m hm, digitsToNat_pad2 d hd⟩

/-- A successful `strptime` yields a year below 10000, a month in 1..12
and a day in 1..31. -/
theorem strptimeDMY_bounds (s : List Char) :
    strptimeDMY s = none ∨
    ∃ y m d, strptimeDMY s = some (y, m, d) ∧ 1 ≤ y ∧ y < 10000 ∧
      1 ≤ m ∧ m ≤ 12 ∧ 1 ≤ d ∧ d ≤ 31 := by
  cases h : strptimeDMY s with
  | none => exact Or.inl rfl
  | some ymd =>
    obtain ⟨y, m, d⟩ := ymd
    refine Or.inr ⟨y, m, d, rfl, ?_⟩
    unfold strptimeDMY at h
    split at h
    · cases h
    · rename_i d0 r1 heqday
      split at h
      · cases h
      · split at h
        · cases h
        · rename_i m0 heqm
          split at h
          · cases h
          · split at h
            · rename_i y1 y2 y3 y4 heq4
              split at h
              · rename_i hdig
                split at h
                · rename_i hcond
                  have h2 := Option.some.inj h
                  have hy : digitsToNat [y1, y2, y3, y4] = y :=
                    congrArg (fun p => p.1) h2
                  have hmq : m0 = m := congrArg (fun p => p.2.1) h2
                  have hdq : d0 = d := congrArg (fun p => p.2.2) h2
                  obtain ⟨hmb1, hmb2⟩ := monthIdx?_bounds _ _ heqm
                  have hylt := digitsToNat_four_lt y1 y2 y3 y4
                    hdig.1 hdig.2.1 hdig.2.2.1 hdig.2.2.2
                  have hdm := daysInMonth_le (digitsToNat [y1, y2, y3, y4]) m0
                  refine ⟨?_, ?_, ?_, ?_, ?_, ?_⟩ <;> omega
                · cases h
              · cases h
            · cases h

/-- `extract_issue_date` returns `[]` on failure, and otherwise exactly
the ISO rendering of the `strptime`-parsed captured date text. -/
theorem extract_issue_date_char (t : List Char) :
    extract_issue_date t = [] ∨
    ∃ st en caps y m d,
      Rx.research issueDateRe (apply_ocr_corrections t false) = some (st, en, caps) ∧
      strptimeDMY (Rx.groupOf caps 1) = some (y, m, d) ∧
      extract_issue_date t = toIso (y, m, d) := by
  simp only [extract_issue_date]
  cases hre : Rx.research issueDateRe (apply_ocr_corrections t false) with
  | none => left; rfl
  | some trip =>
    obtain ⟨st, en, caps⟩ := trip
    cases hd : strptimeDMY (Rx.groupOf caps 1) with
    | none => left; simp [hd]
    | some ymd =>
      obtain ⟨y, m, d⟩ := ymd
      right
      refine ⟨st, en, caps, y, m, d, rfl, hd, ?_⟩
      simp [hd]

/-- A successful premium-due-date scan returns the ISO rendering of a
successfully `strptime`-parsed line. -/
theorem scanPremiumDue_iso :
    ∀ (ls : List (List Char)) (prev dstr : List Char),
      scanPremiumDue prev ls = some dstr →
      ∃ s2 y m d, strptimeDMY s2 = some (y, m, d) ∧ dstr = toIso (y, m, d) := by
  intro ls
  induction ls with
  | nil => intro prev dstr h; cases h
  | cons l rest ih =>
    intro prev dstr h
    unfold scanPremiumDue at h
    split at h
    · split at h
      · rename_i ymd heq
        obtain ⟨y, m, d⟩ := ymd
        exact ⟨stripL prev, y, m, d, heq, (Option.some.inj h).symm⟩
      · split at h
        · rename_i ymd heq
          obtain ⟨y, m, d⟩ := ymd
          exact ⟨apply_ocr_corrections (stripL prev) false, y, m, d, heq,
            (Option.some.inj h).symm⟩
        · exact ih _ _ h
    · exact ih _ _ h

/-- `extract_premium_due_date` returns `[]` on failure, and otherwise the
ISO rendering of a successfully `strptime`-parsed date text. -/
theorem extract_premium_due_date_char (t : List Char) :
    extract_premium_due_date t = [] ∨
    ∃ s2 y m d, strptimeDMY s2 = some (y, m, d) ∧
      extract_premium_due_date t = toIso (y, m, d) := by
  simp only [extract_premium_due_date]
  cases hl : PyStr.splitlinesL (apply_ocr_corrections t false) with
  | nil =>
    rcases extract_issue_date_char (apply_ocr_corrections t false) with h |
      ⟨st, en, caps, y, m, d, hre, hsp, hv⟩
    · left; exact h
    · right; exact ⟨Rx.groupOf caps 1, y, m, d, hsp, hv⟩
  | cons l0 rest =>
    cases hs : scanPremiumDue l0 rest with
    | some dstr =>
      obtain ⟨s2, y, m, d, hst, rfl⟩ := scanPremiumDue_iso rest l0 dstr hs
      right
      refine ⟨s2, y, m, d, hst, ?_⟩
      simp [hs]
    | none =>
      rcases extract_issue_date_char (apply_ocr_corrections t false) with h |
        ⟨st, en, caps, y, m, d, hre, hsp, hv⟩
      · left; simp [hs, h]
      · right
        refine ⟨Rx.groupOf caps 1, y, m, d, hsp, ?_⟩
        simp [hs, hv]

end AccountStatement

/-- C5 counterexample: a source matching the recognized `dd/mm/yyyy` date
grammar is returned verbatim by the renewal-notice date extractor, not in
ISO `YYYY-MM-DD` form. -/
theorem C5_counterexample_not_iso :
    RenewalNotice.extract_date_after "ISSUE DATE" "ISSUE DATE: 15/11/2025" = "15/11/2025" ∧
    AccountStatement.isIsoShape "15/11/2025".data = false := by
  constructor <;> decide

/-- C5 (amended): the renewal-notice date extractor, on every input,
returns `""` when its pattern finds no match and otherwise returns,
verbatim, the captured group — a `dd/mm/yyyy`-shaped contiguous substring
of the input; the debit-note issue-date extraction likewise returns `[]`
on no match and otherwise the captured `day monthname year`-shaped
contiguous substring verbatim; only the account-statement extractors
normalize: every nonempty `extract_issue_date` output is `toIso` of the
`strptime`-parsed captured text, every nonempty
`extract_premium_due_date` output is `toIso` of a successfully
`strptime`-parsed text, and every successful `strptime` yields
`1 ≤ m ≤ 12`, `1 ≤ d ≤ 31`, `1 ≤ y < 10000`, with the ISO output's
zero-padded `YYYY`, `MM`, `DD` fields reading back as exactly `y`, `m`,
`d`; concrete runs illustrate each branch. -/
theorem C5_amended_date_output_forms :
    (∀ label t : String,
      (Rx.research (RenewalNotice.dateAfterRe label.data) t.data = none ∧
        RenewalNotice.extract_date_after label t = "") ∨
      ∃ st en caps,
        Rx.research (RenewalNotice.dateAfterRe label.data) t.data = some (st, en, caps) ∧
        (RenewalNotice.extract_date_after label t).data = Rx.groupOf caps 1 ∧
        RenewalNotice.isDdmmSlash (Rx.groupOf caps 1) = true ∧
        ∃ pre post, t.data = pre ++ Rx.groupOf caps 1 ++ post) ∧
    (∀ t : List Char,
      (Rx.research DebitNote.dnDateRe t = none ∧
        DebitNote.extractFirstDn DebitNote.dnDateRe t = []) ∨
      ∃ st en caps, Rx.research DebitNote.dnDateRe t = some (st, en, caps) ∧
        DebitNote.extractFirstDn DebitNote.dnDateRe t = Rx.groupOf caps 1 ∧
        DebitNote.DnDateShape (Rx.groupOf caps 1) ∧
        ∃ pre post, t = pre ++ Rx.groupOf caps 1 ++ post) ∧
    (∀ t : List Char, AccountStatement.extract_issue_date t = [] ∨
      ∃ st en caps y m d,
        Rx.research AccountStatement.issueDateRe
          (AccountStatement.apply_ocr_corrections t false) = some (st, en, caps) ∧
        AccountStatement.strptimeDMY (Rx.groupOf caps 1) = some (y, m, d) ∧
        AccountStatement.extract_issue_date t = AccountStatement.toIso (y, m, d)) ∧
    (∀ t : List Char, AccountStatement.extract_premium_due_date t = [] ∨
      ∃ s y m d, AccountStatement.strptimeDMY s = some (y, m, d) ∧
        AccountStatement.extract_premium_due_date t = AccountStatement.toIso (y, m, d)) ∧
    (∀ s : List Char, AccountStatement.strptimeDMY s = none ∨
      ∃ y m d, AccountStatement.strptimeDMY s = some (y, m, d) ∧
        1 ≤ y ∧ y < 10000 ∧ 1 ≤ m ∧ m ≤ 12 ∧ 1 ≤ d ∧ d ≤ 31 ∧
        PyStr.digitsToNat ((AccountStatement.toIso (y, m, d)).take 4) = y ∧
        PyStr.digitsToNat (((AccountStatement.toIso (y, m, d)).drop 5).take 2) = m ∧
        PyStr.digitsToNat ((AccountStatement.toIso (y, m, d)).drop 8) = d ∧
        AccountStatement.isIsoShape (AccountStatement.toIso (y, m, d)) = true) ∧
    RenewalNotice.extract_date_after "ISSUE DATE" "NOTICE\nISSUE DATE: 15/11/2025\nEND" =
      "15/11/2025" ∧
    RenewalNotice.extract_date_after "ISSUE DATE" "NO DATE HERE" = "" ∧
    DebitNote.extractFirstDn DebitNote.dnDateRe "DATE: 15 November 2025".data =
      "15 November 2025".data ∧
    AccountStatement.extract_issue_date "Issued Date: 15 November 2025".data =
      "2025-11-15".data ∧
    AccountStatement.extract_issue_date "NO DATE HERE".data = [] := by
  refine ⟨RenewalNotice.extract_date_after_char, DebitNote.extractFirstDn_dnDate_char,
    AccountStatement.extract_issue_date_char, AccountStatement.extract_premium_due_date_char,
    ?_, by decide, by decide, by decide, by decide, by decide⟩
  intro s
  rcases AccountStatement.strptimeDMY_bounds s with h | ⟨y, m, d, hs, h1, h2, h3, h4, h5, h6⟩
  · exact Or.inl h
  · obtain ⟨f1, f2, f3⟩ := AccountStatement.toIso_fields y m d h2 (by omega) (by omega)
    exact Or.inr ⟨y, m, d, hs, h1, h2, h3, h4, h5, h6, f1, f2, f3,
      AccountStatement.isIsoShape_toIso (y, m, d)⟩

/-- C8 counterexample: on empty input the account-statement parser's
`account_number` field is the sentinel `"N/A"`, not an empty string. -/
theorem C8_counterexample_account_number_sentinel :
    (AccountStatement.parse_account_statement_text "" "").account_number = "N/A" ∧
    ("N/A" : String) ≠ "" := by
  constructor <;> decide

/-- C8 (amended): on the empty string each per-type parser returns, without
raising, its complete record shape with every scalar field empty and every
list empty — except the account-statement `account_number`, which is the
`"N/A"` sentinel. -/
theorem C8_amended_empty_input_records :
    DebitNote.parse_debit_note_text "" "" =
      { account_number := "", policy_number := "", endorsement_number := "",
        insured_or_agent := "", issue_date := "", insurance_class := "", financials := [] } ∧
    AccountStatement.parse_account_statement_text "" "" =
      { issue_date := "", premium_due_date := "", account_number := "N/A", address := "",
        total_premium_due := 0, entries := [], warnings := [] } ∧
    RenewalNotice.parse_renewal_notice_text "" "" =
      .ok { issue_date := "", insured := "", insurance_class := "", policy_number := "",
            expiry_date := "", ac_code := "", renewal_entries := [], total_earning := 0,
            renewal_premium := 0, uploaded_by := "" } :=
  ⟨by decide, by decide, by decide⟩

namespace AccountStatement

theorem zipAlign_get? :
    ∀ (ss : List StructEntry) (ps : List PolicyNature) (i : ℕ),
      (zipAlign ss ps).get? i = (ss.get? i).map fun s => alignEntry s (ps.get? i) := by
  intro ss
  induction ss with
  | nil => intro ps i; simp [zipAlign]
  | cons s ss ih =>
    intro ps i
    cases i with
    | zero =>
      show some (alignEntry s ps.head?) = some (alignEntry s (ps.get? 0))
      rw [List.get?_zero]
    | succ n =>
      show (zipAlign ss ps.tail).get? n = (ss.get? n).map fun s => alignEntry s (ps.get? (n + 1))
      rw [ih ps.tail n]
      cases ps <;> rfl

end AccountStatement

/-- C6: account-statement entry `i` combines the `i`-th structured
(date/debit/premium) entry with the `i`-th policy/nature pair regardless of
content, and when the pair sequence is shorter every trailing entry has
`policy_number = none` and `nature = none`. -/
theorem C6_entries_positional_alignment (t : List Char) (i : ℕ) :
    ((AccountStatement.parse_entries t).get? i =
      ((AccountStatement.structuredEntriesOf (AccountStatement.clean_global_ocr t)).get? i).map
        fun s => AccountStatement.alignEntry s
          ((AccountStatement.policyNaturePairsOf (AccountStatement.clean_global_ocr t)).get? i)) ∧
    (∀ e : AccountStatement.ASEntry,
      (AccountStatement.policyNaturePairsOf (AccountStatement.clean_global_ocr t)).length ≤ i →
      (AccountStatement.parse_entries t).get? i = some e →
      e.policy_number = none ∧ e.nature = none) := by
  have hmain : (AccountStatement.parse_entries t).get? i =
      ((AccountStatement.structuredEntriesOf (AccountStatement.clean_global_ocr t)).get? i).map
        (fun s => AccountStatement.alignEntry s
          ((AccountStatement.policyNaturePairsOf (AccountStatement.clean_global_ocr t)).get? i)) :=
    AccountStatement.zipAlign_get? _ _ i
  refine ⟨hmain, ?_⟩
  intro e hlen heq
  rw [hmain, List.get?_eq_none.mpr hlen] at heq
  cases hs : (AccountStatement.structuredEntriesOf (AccountStatement.clean_global_ocr t)).get? i with
  | none => rw [hs] at heq; cases heq
  | some s =>
    rw [hs] at heq
    obtain rfl := Option.some.inj heq
    exact ⟨rfl, rfl⟩

/-- Witness for C6: one pair but two structured entries — the second entry's
policy/nature are `none`. -/
theorem C6_witness :
    ∃ e : AccountStatement.ASEntry,
      (AccountStatement.parse_entries
        "EFFECTIVE DATE DEBIT NOTE NO. 01/02/2024 B123\nPREMIUM\nPOL-1 100)\nTOTAL HXS\n03/04/2024\nB456\n250\n".data).get? 1 =
        some e ∧ e.policy_number = none ∧ e.nature = none := by
  refine ⟨{ effective_date := "03/04/2024", debit_note := some "B456",
            policy_number := none, nature := none, premium := 250 }, by decide, ?_⟩
  exact (C6_entries_positional_alignment
    "EFFECTIVE DATE DEBIT NOTE NO. 01/02/2024 B123\nPREMIUM\nPOL-1 100)\nTOTAL HXS\n03/04/2024\nB456\n250\n".data 1).2
    _ (by decide) (by decide)

namespace RenewalNotice

theorem parseTokensE_ok :
    ∀ toks : List (List Char),
      (toks.all fun tk => (tokVal tk).isSome) = true →
      parseTokensE toks =
        .ok (toks.map fun tk => (tokVal tk).getD 0) := by
  intro toks
  induction toks with
  | nil => intro _; rfl
  | cons tk rest ih =>
    intro h
    simp only [List.all_cons, Bool.and_eq_true] at h
    cases hf : tokVal tk with
    | none => rw [hf] at h; simp at h
    | some v =>
      simp [parseTokensE, hf, ih h.2]

theorem lineAmountE_ok (l : List Char)
    (h : ((amountTokens l).all fun tk => (RenewalNotice.tokVal tk).isSome) = true) :
    lineAmountE l = .ok (lineAmount l) := by
  unfold lineAmountE lineAmount
  by_cases ht : (amountTokens l).isEmpty
  · simp [ht]
  · simp only [ht, Bool.false_eq_true, if_false]
    rw [parseTokensE_ok _ h]
    cases hm : (amountTokens l).map fun tk => (tokVal tk).getD 0 with
    | nil => rfl
    | cons n ns => rfl

theorem mapAmountsE_ok :
    ∀ ls : List (List Char),
      (ls.all fun l =>
        (amountTokens l).all fun tk => (RenewalNotice.tokVal tk).isSome) = true →
      mapAmountsE ls = .ok (ls.map lineAmount) := by
  intro ls
  induction ls with
  | nil => intro _; rfl
  | cons l rest ih =>
    intro h
    simp only [List.all_cons, Bool.and_eq_true] at h
    simp only [mapAmountsE, lineAmountE_ok l h.1, ih h.2, List.map_cons]

theorem zipEntriesGo_get? :
    ∀ (ls : List (List Char)) (amts : List ℚ) (i : ℕ),
      (zipEntriesGo ls amts).get? i =
        (ls.get? i).map fun l => { label := String.mk l, amount := amts.getD i 0 } := by
  intro ls
  induction ls with
  | nil => intro amts i; simp [zipEntriesGo]
  | cons l ls ih =>
    intro amts i
    cases i with
    | zero =>
      show some _ = some _
      cases amts <;> rfl
    | succ n =>
      show (zipEntriesGo ls amts.tail).get? n = _
      rw [ih amts.tail n]
      cases amts <;> rfl

end RenewalNotice

/-- C7 counterexample: a block whose amount line contains a commas-only
numeric token makes `extract_renewal_entries` raise a `ValueError` instead
of returning one entry per label. -/
theorem C7_counterexample_comma_token :
    RenewalNotice.labelsOf "EMPLOYEES\nALPHA 2BETA\na,,b\nTOTAL 99".data =
      ["ALPHA".data, "2BETA".data] ∧
    RenewalNotice.extract_renewal_entriesE "EMPLOYEES\nALPHA 2BETA\na,,b\nTOTAL 99".data =
      .error "ValueError: could not convert string to float" := by
  constructor <;> decide

/-- C7 (amended): provided every numeric token found on the block's amount
lines parses as a float after comma removal (a commas-only token raises
instead), the extractor returns exactly one entry per label in label order,
entry `i` carrying the maximum parsed value of amount line `i` and `0.0`
when the amount sequence is shorter (or the line has no numeric token). -/
theorem C7_amended_entries_zip (t : List Char) :
    (RenewalNotice.amountsOk t = true →
      RenewalNotice.extract_renewal_entriesE t =
        .ok (RenewalNotice.zipEntriesGo (RenewalNotice.labelsOf t) (RenewalNotice.amountsOf t))) ∧
    (∀ i : ℕ,
      (RenewalNotice.zipEntriesGo (RenewalNotice.labelsOf t) (RenewalNotice.amountsOf t)).get? i =
        ((RenewalNotice.labelsOf t).get? i).map fun l =>
          { label := String.mk l, amount := (RenewalNotice.amountsOf t).getD i 0 }) := by
  constructor
  · intro h
    unfold RenewalNotice.amountsOk at h
    unfold RenewalNotice.extract_renewal_entriesE RenewalNotice.labelsOf RenewalNotice.amountsOf
    cases hb : RenewalNotice.renewalBlock? t with
    | none => rfl
    | some b =>
      rw [hb] at h
      dsimp only at h ⊢
      rw [RenewalNotice.mapAmountsE_ok _ h]
  · intro i
    exact RenewalNotice.zipEntriesGo_get? _ _ i

/-- Witness for C7: three labels, two amount lines — all tokens parse, the
third entry's amount defaults to `0.0` and label order is preserved. -/
theorem C7_witness :
    RenewalNotice.amountsOk "EMPLOYEES\nCOOK 2DRIVER 3GUARD\n1,296.20 5\n700\nTOTAL 9999".data = true ∧
    RenewalNotice.extract_renewal_entriesE
        "EMPLOYEES\nCOOK 2DRIVER 3GUARD\n1,296.20 5\n700\nTOTAL 9999".data =
      .ok [{ label := "COOK", amount := mkRat 6481 5 },
           { label := "2DRIVER", amount := 700 },
           { label := "3GUARD", amount := 0 }] := by
  refine ⟨by decide, ?_⟩
  rw [(C7_amended_entries_zip
    "EMPLOYEES\nCOOK 2DRIVER 3GUARD\n1,296.20 5\n700\nTOTAL 9999".data).1 (by decide)]
  decide
